import Mathlib

/-!
Verification of the mandala-lite storage engine against its specification.

The development shallowly embeds the storage engine of `mandala/_next/storage.py`
and `mandala/_next/storage_utils.py`:

* values, refs and calls are Lean inductive types mirroring the Python data
  model (`AtomRef` / `ListRef` / `DictRef`, `Call`);
* content ids and history ids are modelled as a free algebra `Digest` whose
  constructors record exactly the data that the engine hashes (spec section 4.5);
  hashing is thus modelled as injective ("ideal hash"), and the deterministic
  serialization codec is modelled as the identity on values;
* the storage state (`St`) carries the cached and persistent tiers of the
  `atoms` / `shapes` / `ops` tables, the in-memory call cache, the persistent
  call table, the context flag and a counter for fresh uuids, plus a counter
  of user-function executions used to express "the function ran n times";
* fallible operations return `Res`, and every genuinely non-structural
  recursion (table-driven loading, construct/destruct pipelines) takes an
  explicit fuel argument so that all definitions are executable and reduce
  in the kernel.

Components of the repository that are not part of the given sources
(`model.py`, `utils.py`, `common_imports.py`: the `Ref`/`Op`/`Call` classes,
id-derivation helpers, `wrap_atom`, `parse_returns`, the serializer) are
modelled from the specification; each such definition is marked
`Modelled from the spec`.
-/

/-- Plain (unwrapped) values handled by the engine: leaf atoms (modelled as
naturals and strings), ordered sequences, and string-keyed maps. -/
inductive Val where
  | atomV (n : Nat)
  | atomS (t : String)
  | listV (elts : List Val)
  | dictV (items : List (String × Val))

/-- Modelled from the spec (section 4.5, "Identity & serialization", from the
missing identity component of `model.py`): content ids and history ids as a
free algebra.  Each constructor records the tuple that the engine hashes:
atom cid = hash of serialized bytes, list cid = hash of ("list", child cids),
dict cid = hash of ("dict", sorted (key, child cid)), call cid/hid = hash of
(op id, sorted (slot, input id), semantic version), output hid = hash of
(call hid, output slot name), and fresh uuids for refs introduced from user
code.  Distinct constructors model the absence of hash collisions. -/
inductive Digest where
  | atomId (v : Val)
  | listId (elts : List Digest)
  | dictId (items : List (String × Digest))
  | callHid (opId : String) (ins : List (String × Digest)) (sv : Option String)
  | callCid (opId : String) (ins : List (String × Digest)) (sv : Option String)
  | outHid (call : Digest) (slot : String)
  | freshId (n : Nat)

/-- Modelled from the spec (section 3, "Ref"): the three ref variants of
`model.py`.  An `AtomRef` is in memory exactly when it carries its value;
composite refs keep their children even when detached (the "structural
shape" of the spec), with the `inMemory` flag mirroring the Python
attribute set by `attached`/`detached`. -/
inductive Ref where
  | atomR (cid hid : Digest) (obj : Option Val)
  | listR (cid hid : Digest) (inMemory : Bool) (elts : List Ref)
  | dictR (cid hid : Digest) (inMemory : Bool) (items : List (String × Ref))

/-- Decidable equality for optional values, given a decider for the payload. -/
def decOptOf {α : Type} (d : (a b : α) -> Decidable (a = b)) : (a b : Option α) -> Decidable (a = b)
  | none, none => .isTrue rfl
  | none, some _ => .isFalse (fun q => Option.noConfusion q)
  | some _, none => .isFalse (fun q => Option.noConfusion q)
  | some x, some y =>
      match d x y with
      | .isFalse h => .isFalse (fun q => Option.noConfusion q (fun e => h e))
      | .isTrue e => .isTrue (by rw [e])

/-- Decidable equality for optional strings. -/
def decOptString : (a b : Option String) -> Decidable (a = b) := decOptOf String.decEq

mutual
def Val.deq (a b : Val) : Decidable (a = b) :=
  match a, b with
  | .atomV x0, .atomV y0 =>
      match Nat.decEq x0 y0 with
      | .isFalse h => .isFalse (fun q => Val.noConfusion q (fun e0 => h e0))
      | .isTrue e0 =>
        .isTrue (by rw [e0])
  | .atomV _, .atomS _ => .isFalse (fun q => Val.noConfusion q)
  | .atomV _, .listV _ => .isFalse (fun q => Val.noConfusion q)
  | .atomV _, .dictV _ => .isFalse (fun q => Val.noConfusion q)
  | .atomS _, .atomV _ => .isFalse (fun q => Val.noConfusion q)
  | .atomS x0, .atomS y0 =>
      match String.decEq x0 y0 with
      | .isFalse h => .isFalse (fun q => Val.noConfusion q (fun e0 => h e0))
      | .isTrue e0 =>
        .isTrue (by rw [e0])
  | .atomS _, .listV _ => .isFalse (fun q => Val.noConfusion q)
  | .atomS _, .dictV _ => .isFalse (fun q => Val.noConfusion q)
  | .listV _, .atomV _ => .isFalse (fun q => Val.noConfusion q)
  | .listV _, .atomS _ => .isFalse (fun q => Val.noConfusion q)
  | .listV x0, .listV y0 =>
      match Val.deqList x0 y0 with
      | .isFalse h => .isFalse (fun q => Val.noConfusion q (fun e0 => h e0))
      | .isTrue e0 =>
        .isTrue (by rw [e0])
  | .listV _, .dictV _ => .isFalse (fun q => Val.noConfusion q)
  | .dictV _, .atomV _ => .isFalse (fun q => Val.noConfusion q)
  | .dictV _, .atomS _ => .isFalse (fun q => Val.noConfusion q)
  | .dictV _, .listV _ => .isFalse (fun q => Val.noConfusion q)
  | .dictV x0, .dictV y0 =>
      match Val.deqItems x0 y0 with
      | .isFalse h => .isFalse (fun q => Val.noConfusion q (fun e0 => h e0))
      | .isTrue e0 =>
        .isTrue (by rw [e0])
termination_by structural a

def Val.deqList (a b : List Val) : Decidable (a = b) :=
  match a, b with
  | [], [] => .isTrue rfl
  | [], _ :: _ => .isFalse (fun q => List.noConfusion q)
  | _ :: _, [] => .isFalse (fun q => List.noConfusion q)
  | x :: xs, y :: ys =>
      match Val.deq x y with
      | .isFalse h => .isFalse (fun q => List.noConfusion q (fun e1 e2 => h e1))
      | .isTrue e1 =>
        match Val.deqList xs ys with
        | .isFalse h => .isFalse (fun q => List.noConfusion q (fun e1 e2 => h e2))
        | .isTrue e2 => .isTrue (by rw [e1, e2])
termination_by structural a

def Val.deqItems (a b : List (String × Val)) : Decidable (a = b) :=
  match a, b with
  | [], [] => .isTrue rfl
  | [], _ :: _ => .isFalse (fun q => List.noConfusion q)
  | _ :: _, [] => .isFalse (fun q => List.noConfusion q)
  | x :: xs, y :: ys =>
      match Val.deqPair x y with
      | .isFalse h => .isFalse (fun q => List.noConfusion q (fun e1 e2 => h e1))
      | .isTrue e1 =>
        match Val.deqItems xs ys with
        | .isFalse h => .isFalse (fun q => List.noConfusion q (fun e1 e2 => h e2))
        | .isTrue e2 => .isTrue (by rw [e1, e2])
termination_by structural a

def Val.deqPair (a b : String × Val) : Decidable (a = b) :=
  match a, b with
  | (k1, v1), (k2, v2) =>
      match String.decEq k1 k2 with
      | .isFalse h => .isFalse (fun q => by cases q; exact h rfl)
      | .isTrue e1 =>
        match Val.deq v1 v2 with
        | .isFalse h => .isFalse (fun q => by cases q; exact h rfl)
        | .isTrue e2 => .isTrue (by rw [e1, e2])
termination_by structural a
end

instance : DecidableEq Val := Val.deq

mutual
def Digest.deq (a b : Digest) : Decidable (a = b) :=
  match a, b with
  | .atomId x0, .atomId y0 =>
      match Val.deq x0 y0 with
      | .isFalse h => .isFalse (fun q => Digest.noConfusion q (fun e0 => h e0))
      | .isTrue e0 =>
        .isTrue (by rw [e0])
  | .atomId _, .listId _ => .isFalse (fun q => Digest.noConfusion q)
  | .atomId _, .dictId _ => .isFalse (fun q => Digest.noConfusion q)
  | .atomId _, .callHid _ _ _ => .isFalse (fun q => Digest.noConfusion q)
  | .atomId _, .callCid _ _ _ => .isFalse (fun q => Digest.noConfusion q)
  | .atomId _, .outHid _ _ => .isFalse (fun q => Digest.noConfusion q)
  | .atomId _, .freshId _ => .isFalse (fun q => Digest.noConfusion q)
  | .listId _, .atomId _ => .isFalse (fun q => Digest.noConfusion q)
  | .listId x0, .listId y0 =>
      match Digest.deqList x0 y0 with
      | .isFalse h => .isFalse (fun q => Digest.noConfusion q (fun e0 => h e0))
      | .isTrue e0 =>
        .isTrue (by rw [e0])
  | .listId _, .dictId _ => .isFalse (fun q => Digest.noConfusion q)
  | .listId _, .callHid _ _ _ => .isFalse (fun q => Digest.noConfusion q)
  | .listId _, .callCid _ _ _ => .isFalse (fun q => Digest.noConfusion q)
  | .listId _, .outHid _ _ => .isFalse (fun q => Digest.noConfusion q)
  | .listId _, .freshId _ => .isFalse (fun q => Digest.noConfusion q)
  | .dictId _, .atomId _ => .isFalse (fun q => Digest.noConfusion q)
  | .dictId _, .listId _ => .isFalse (fun q => Digest.noConfusion q)
  | .dictId x0, .dictId y0 =>
      match Digest.deqItems x0 y0 with
      | .isFalse h => .isFalse (fun q => Digest.noConfusion q (fun e0 => h e0))
      | .isTrue e0 =>
        .isTrue (by rw [e0])
  | .dictId _, .callHid _ _ _ => .isFalse (fun q => Digest.noConfusion q)
  | .dictId _, .callCid _ _ _ => .isFalse (fun q => Digest.noConfusion q)
  | .dictId _, .outHid _ _ => .isFalse (fun q => Digest.noConfusion q)
  | .dictId _, .freshId _ => .isFalse (fun q => Digest.noConfusion q)
  | .callHid _ _ _, .atomId _ => .isFalse (fun q => Digest.noConfusion q)
  | .callHid _ _ _, .listId _ => .isFalse (fun q => Digest.noConfusion q)
  | .callHid _ _ _, .dictId _ => .isFalse (fun q => Digest.noConfusion q)
  | .callHid x0 x1 x2, .callHid y0 y1 y2 =>
      match String.decEq x0 y0 with
      | .isFalse h => .isFalse (fun q => Digest.noConfusion q (fun e0 e1 e2 => h e0))
      | .isTrue e0 =>
        match Digest.deqItems x1 y1 with
        | .isFalse h => .isFalse (fun q => Digest.noConfusion q (fun e0 e1 e2 => h e1))
        | .isTrue e1 =>
          match decOptString x2 y2 with
          | .isFalse h => .isFalse (fun q => Digest.noConfusion q (fun e0 e1 e2 => h e2))
          | .isTrue e2 =>
            .isTrue (by rw [e0, e1, e2])
  | .callHid _ _ _, .callCid _ _ _ => .isFalse (fun q => Digest.noConfusion q)
  | .callHid _ _ _, .outHid _ _ => .isFalse (fun q => Digest.noConfusion q)
  | .callHid _ _ _, .freshId _ => .isFalse (fun q => Digest.noConfusion q)
  | .callCid _ _ _, .atomId _ => .isFalse (fun q => Digest.noConfusion q)
  | .callCid _ _ _, .listId _ => .isFalse (fun q => Digest.noConfusion q)
  | .callCid _ _ _, .dictId _ => .isFalse (fun q => Digest.noConfusion q)
  | .callCid _ _ _, .callHid _ _ _ => .isFalse (fun q => Digest.noConfusion q)
  | .callCid x0 x1 x2, .callCid y0 y1 y2 =>
      match String.decEq x0 y0 with
      | .isFalse h => .isFalse (fun q => Digest.noConfusion q (fun e0 e1 e2 => h e0))
      | .isTrue e0 =>
        match Digest.deqItems x1 y1 with
        | .isFalse h => .isFalse (fun q => Digest.noConfusion q (fun e0 e1 e2 => h e1))
        | .isTrue e1 =>
          match decOptString x2 y2 with
          | .isFalse h => .isFalse (fun q => Digest.noConfusion q (fun e0 e1 e2 => h e2))
          | .isTrue e2 =>
            .isTrue (by rw [e0, e1, e2])
  | .callCid _ _ _, .outHid _ _ => .isFalse (fun q => Digest.noConfusion q)
  | .callCid _ _ _, .freshId _ => .isFalse (fun q => Digest.noConfusion q)
  | .outHid _ _, .atomId _ => .isFalse (fun q => Digest.noConfusion q)
  | .outHid _ _, .listId _ => .isFalse (fun q => Digest.noConfusion q)
  | .outHid _ _, .dictId _ => .isFalse (fun q => Digest.noConfusion q)
  | .outHid _ _, .callHid _ _ _ => .isFalse (fun q => Digest.noConfusion q)
  | .outHid _ _, .callCid _ _ _ => .isFalse (fun q => Digest.noConfusion q)
  | .outHid x0 x1, .outHid y0 y1 =>
      match Digest.deq x0 y0 with
      | .isFalse h => .isFalse (fun q => Digest.noConfusion q (fun e0 e1 => h e0))
      | .isTrue e0 =>
        match String.decEq x1 y1 with
        | .isFalse h => .isFalse (fun q => Digest.noConfusion q (fun e0 e1 => h e1))
        | .isTrue e1 =>
          .isTrue (by rw [e0, e1])
  | .outHid _ _, .freshId _ => .isFalse (fun q => Digest.noConfusion q)
  | .freshId _, .atomId _ => .isFalse (fun q => Digest.noConfusion q)
  | .freshId _, .listId _ => .isFalse (fun q => Digest.noConfusion q)
  | .freshId _, .dictId _ => .isFalse (fun q => Digest.noConfusion q)
  | .freshId _, .callHid _ _ _ => .isFalse (fun q => Digest.noConfusion q)
  | .freshId _, .callCid _ _ _ => .isFalse (fun q => Digest.noConfusion q)
  | .freshId _, .outHid _ _ => .isFalse (fun q => Digest.noConfusion q)
  | .freshId x0, .freshId y0 =>
      match Nat.decEq x0 y0 with
      | .isFalse h => .isFalse (fun q => Digest.noConfusion q (fun e0 => h e0))
      | .isTrue e0 =>
        .isTrue (by rw [e0])
termination_by structural a

def Digest.deqList (a b : List Digest) : Decidable (a = b) :=
  match a, b with
  | [], [] => .isTrue rfl
  | [], _ :: _ => .isFalse (fun q => List.noConfusion q)
  | _ :: _, [] => .isFalse (fun q => List.noConfusion q)
  | x :: xs, y :: ys =>
      match Digest.deq x y with
      | .isFalse h => .isFalse (fun q => List.noConfusion q (fun e1 e2 => h e1))
      | .isTrue e1 =>
        match Digest.deqList xs ys with
        | .isFalse h => .isFalse (fun q => List.noConfusion q (fun e1 e2 => h e2))
        | .isTrue e2 => .isTrue (by rw [e1, e2])
termination_by structural a

def Digest.deqItems (a b : List (String × Digest)) : Decidable (a = b) :=
  match a, b with
  | [], [] => .isTrue rfl
  | [], _ :: _ => .isFalse (fun q => List.noConfusion q)
  | _ :: _, [] => .isFalse (fun q => List.noConfusion q)
  | x :: xs, y :: ys =>
      match Digest.deqPair x y with
      | .isFalse h => .isFalse (fun q => List.noConfusion q (fun e1 e2 => h e1))
      | .isTrue e1 =>
        match Digest.deqItems xs ys with
        | .isFalse h => .isFalse (fun q => List.noConfusion q (fun e1 e2 => h e2))
        | .isTrue e2 => .isTrue (by rw [e1, e2])
termination_by structural a

def Digest.deqPair (a b : String × Digest) : Decidable (a = b) :=
  match a, b with
  | (k1, v1), (k2, v2) =>
      match String.decEq k1 k2 with
      | .isFalse h => .isFalse (fun q => by cases q; exact h rfl)
      | .isTrue e1 =>
        match Digest.deq v1 v2 with
        | .isFalse h => .isFalse (fun q => by cases q; exact h rfl)
        | .isTrue e2 => .isTrue (by rw [e1, e2])
termination_by structural a
end

instance : DecidableEq Digest := Digest.deq

mutual
def Ref.deq (a b : Ref) : Decidable (a = b) :=
  match a, b with
  | .atomR x0 x1 x2, .atomR y0 y1 y2 =>
      match Digest.deq x0 y0 with
      | .isFalse h => .isFalse (fun q => Ref.noConfusion q (fun e0 e1 e2 => h e0))
      | .isTrue e0 =>
        match Digest.deq x1 y1 with
        | .isFalse h => .isFalse (fun q => Ref.noConfusion q (fun e0 e1 e2 => h e1))
        | .isTrue e1 =>
          match (decOptOf Val.deq) x2 y2 with
          | .isFalse h => .isFalse (fun q => Ref.noConfusion q (fun e0 e1 e2 => h e2))
          | .isTrue e2 =>
            .isTrue (by rw [e0, e1, e2])
  | .atomR _ _ _, .listR _ _ _ _ => .isFalse (fun q => Ref.noConfusion q)
  | .atomR _ _ _, .dictR _ _ _ _ => .isFalse (fun q => Ref.noConfusion q)
  | .listR _ _ _ _, .atomR _ _ _ => .isFalse (fun q => Ref.noConfusion q)
  | .listR x0 x1 x2 x3, .listR y0 y1 y2 y3 =>
      match Digest.deq x0 y0 with
      | .isFalse h => .isFalse (fun q => Ref.noConfusion q (fun e0 e1 e2 e3 => h e0))
      | .isTrue e0 =>
        match Digest.deq x1 y1 with
        | .isFalse h => .isFalse (fun q => Ref.noConfusion q (fun e0 e1 e2 e3 => h e1))
        | .isTrue e1 =>
          match Bool.decEq x2 y2 with
          | .isFalse h => .isFalse (fun q => Ref.noConfusion q (fun e0 e1 e2 e3 => h e2))
          | .isTrue e2 =>
            match Ref.deqList x3 y3 with
            | .isFalse h => .isFalse (fun q => Ref.noConfusion q (fun e0 e1 e2 e3 => h e3))
            | .isTrue e3 =>
              .isTrue (by rw [e0, e1, e2, e3])
  | .listR _ _ _ _, .dictR _ _ _ _ => .isFalse (fun q => Ref.noConfusion q)
  | .dictR _ _ _ _, .atomR _ _ _ => .isFalse (fun q => Ref.noConfusion q)
  | .dictR _ _ _ _, .listR _ _ _ _ => .isFalse (fun q => Ref.noConfusion q)
  | .dictR x0 x1 x2 x3, .dictR y0 y1 y2 y3 =>
      match Digest.deq x0 y0 with
      | .isFalse h => .isFalse (fun q => Ref.noConfusion q (fun e0 e1 e2 e3 => h e0))
      | .isTrue e0 =>
        match Digest.deq x1 y1 with
        | .isFalse h => .isFalse (fun q => Ref.noConfusion q (fun e0 e1 e2 e3 => h e1))
        | .isTrue e1 =>
          match Bool.decEq x2 y2 with
          | .isFalse h => .isFalse (fun q => Ref.noConfusion q (fun e0 e1 e2 e3 => h e2))
          | .isTrue e2 =>
            match Ref.deqItems x3 y3 with
            | .isFalse h => .isFalse (fun q => Ref.noConfusion q (fun e0 e1 e2 e3 => h e3))
            | .isTrue e3 =>
              .isTrue (by rw [e0, e1, e2, e3])
termination_by structural a

def Ref.deqList (a b : List Ref) : Decidable (a = b) :=
  match a, b with
  | [], [] => .isTrue rfl
  | [], _ :: _ => .isFalse (fun q => List.noConfusion q)
  | _ :: _, [] => .isFalse (fun q => List.noConfusion q)
  | x :: xs, y :: ys =>
      match Ref.deq x y with
      | .isFalse h => .isFalse (fun q => List.noConfusion q (fun e1 e2 => h e1))
      | .isTrue e1 =>
        match Ref.deqList xs ys with
        | .isFalse h => .isFalse (fun q => List.noConfusion q (fun e1 e2 => h e2))
        | .isTrue e2 => .isTrue (by rw [e1, e2])
termination_by structural a

def Ref.deqItems (a b : List (String × Ref)) : Decidable (a = b) :=
  match a, b with
  | [], [] => .isTrue rfl
  | [], _ :: _ => .isFalse (fun q => List.noConfusion q)
  | _ :: _, [] => .isFalse (fun q => List.noConfusion q)
  | x :: xs, y :: ys =>
      match Ref.deqPair x y with
      | .isFalse h => .isFalse (fun q => List.noConfusion q (fun e1 e2 => h e1))
      | .isTrue e1 =>
        match Ref.deqItems xs ys with
        | .isFalse h => .isFalse (fun q => List.noConfusion q (fun e1 e2 => h e2))
        | .isTrue e2 => .isTrue (by rw [e1, e2])
termination_by structural a

def Ref.deqPair (a b : String × Ref) : Decidable (a = b) :=
  match a, b with
  | (k1, v1), (k2, v2) =>
      match String.decEq k1 k2 with
      | .isFalse h => .isFalse (fun q => by cases q; exact h rfl)
      | .isTrue e1 =>
        match Ref.deq v1 v2 with
        | .isFalse h => .isFalse (fun q => by cases q; exact h rfl)
        | .isTrue e2 => .isTrue (by rw [e1, e2])
termination_by structural a
end

instance : DecidableEq Ref := Ref.deq
/-- The error taxonomy of the engine (spec section 7).  `keyNotFound` models
`KeyError`/`NotFound` raises, `notAllowedInContext` models the guard raise of
the provenance queries, `sideEffectDetected` the abort of
`Storage.call_internal` on a mutated input, `typeMismatch` the failures of
`get_struct_inputs` on a value inconsistent with its declared type,
`integrity` a malformed stored shape, `arityMismatch` failures of argument
or return parsing, and `fuelOut` divergence (unbounded recursion through the
shapes table). -/
inductive Err where
  | keyNotFound
  | notAllowedInContext
  | sideEffectDetected
  | typeMismatch
  | integrity
  | arityMismatch
  | fuelOut
deriving DecidableEq

/-- Result type of fallible storage operations (Python raises). -/
inductive Res (α : Type) where
  | ok (val : α)
  | err (e : Err)
deriving DecidableEq

def Res.bind {α β : Type} (r : Res α) (f : α → Res β) : Res β :=
  match r with
  | .ok a => f a
  | .err e => .err e

instance : Monad Res where
  pure := Res.ok
  bind := Res.bind

/-- `Res`-valued map over a list, failing on the first failure (Python loops
that raise out of the enclosing function). -/
def mapR {α β : Type} (f : α → Res β) : List α → Res (List β)
  | [] => .ok []
  | a :: rest => do
      let b ← f a
      let bs ← mapR f rest
      .ok (b :: bs)

/-- Association-list lookup (Python dict read). -/
def lookupA {α β : Type} [DecidableEq α] (k : α) : List (α × β) → Option β
  | [] => none
  | (k2, v) :: rest => if k = k2 then some v else lookupA k rest

/-- Association-list upsert (Python dict write); the newest binding shadows
older ones. -/
def setA {α β : Type} [DecidableEq α] (k : α) (v : β) (l : List (α × β)) : List (α × β) :=
  (k, v) :: l

/-- Association-list delete (Python dict/SQL delete): remove every binding
of the key. -/
def dropA {α β : Type} [DecidableEq α] (k : α) : List (α × β) → List (α × β)
  | [] => []
  | (k2, v) :: rest => if k2 = k then dropA k rest else (k2, v) :: dropA k rest

/-- Modelled from the spec (section 6, "Type"): the type annotations consumed
by the engine: `AtomType`, `ListType(elt)`, `DictType(key, val)`. -/
inductive Ty where
  | atomT
  | listT (elt : Ty)
  | dictT (key : Ty) (val : Ty)
deriving DecidableEq

/-- Content id of a ref (`ref.cid`). -/
def Ref.cid : Ref → Digest
  | .atomR c _ _ => c
  | .listR c _ _ _ => c
  | .dictR c _ _ _ => c

/-- History id of a ref (`ref.hid`). -/
def Ref.hid : Ref → Digest
  | .atomR _ h _ => h
  | .listR _ h _ _ => h
  | .dictR _ h _ _ => h

mutual
/-- Modelled from the spec (section 3, invariants of `Ref`): `detached()` /
`shape()` of a ref: the value of an atom is dropped and composite children are
replaced by detached refs, keeping only cid, hid and structural shape. -/
def Ref.detached (r : Ref) : Ref :=
  match r with
  | .atomR c h _ => .atomR c h none
  | .listR c h _ elts => .listR c h false (Ref.detachedList elts)
  | .dictR c h _ items => .dictR c h false (Ref.detachedItems items)
termination_by structural r

def Ref.detachedList (l : List Ref) : List Ref :=
  match l with
  | [] => []
  | r :: rest => Ref.detached r :: Ref.detachedList rest
termination_by structural l

def Ref.detachedItems (l : List (String × Ref)) : List (String × Ref) :=
  match l with
  | [] => []
  | (k, r) :: rest => (k, Ref.detached r) :: Ref.detachedItems rest
termination_by structural l
end

/-- Modelled from the spec: `ref.with_hid(hid)` — same ref under a new
history id. -/
def Ref.withHid (r : Ref) (h : Digest) : Ref :=
  match r with
  | .atomR c _ o => .atomR c h o
  | .listR c _ m elts => .listR c h m elts
  | .dictR c _ m items => .dictR c h m items

/-- Modelled from the spec: `shape.attached(obj=...)` for an atom shape —
the same cid/hid, now in memory with the given value. -/
def Ref.attachedAtom (r : Ref) (v : Val) : Ref :=
  match r with
  | .atomR c h _ => .atomR c h (some v)
  | other => other

/-- Sorted insertion by key, used to model Python's `sorted` over
(name, id) pairs in the id derivations. -/
def insByName {β : Type} (p : String × β) : List (String × β) → List (String × β)
  | [] => [p]
  | q :: rest => if p.1 < q.1 then p :: q :: rest else q :: insByName p rest

/-- Sorting an association list by key (insertion sort). -/
def sortByName {β : Type} (l : List (String × β)) : List (String × β) :=
  match l with
  | [] => []
  | p :: rest => insByName p (sortByName rest)

/-- Modelled from the spec (section 4.5): `op.get_call_history_id(inputs,
semantic_version)`: hash of (op id, sorted (slot, input hid), semantic
version). -/
def callHidOf (opName : String) (inputs : List (String × Ref)) (sv : Option String) : Digest :=
  .callHid opName (sortByName (inputs.map (fun p => (p.1, p.2.hid)))) sv

/-- Modelled from the spec (section 4.5): `op.get_call_content_id(inputs,
semantic_version)`: hash of (op id, sorted (slot, input cid), semantic
version). -/
def callCidOf (opName : String) (inputs : List (String × Ref)) (sv : Option String) : Digest :=
  .callCid opName (sortByName (inputs.map (fun p => (p.1, p.2.cid)))) sv

/-- Modelled from the spec (section 4.5): `op.get_output_history_ids`: each
output hid is the hash of (call hid, output slot name). -/
def outHidsOf (chid : Digest) (names : List String) : List (String × Digest) :=
  names.map (fun n => (n, Digest.outHid chid n))

/-- Modelled from the spec (section 6, "Op"): a user (non-structural) op:
name, side-effect flag, ordered input slots with their declared annotations,
declared output names with their annotations, and the user function.  The
user function is modelled over plain values: it receives the unwrapped
positional arguments in signature order and yields the tuple of returned
values together with the post-call values of its (mutable) arguments. -/
structure UOp where
  name : String
  allowSideEffects : Bool
  params : List (String × Ty)
  outputNames : List String
  outTys : List Ty
  fn : List Val → List Val × List Val

/-- An in-memory `Call` record (the `Call` class of `model.py`, by op name):
content id, history id, input and output refs by slot. -/
structure CallRec where
  opName : String
  cid : Digest
  hid : Digest
  inputs : List (String × Ref)
  outputs : List (String × Ref)
  sv : Option String
deriving DecidableEq

/-- The per-call grouping of rows of the normalized call table
(`InMemCallStorage.mget_data` / `SQLiteCallStorage.mget_data` reconstruct
exactly these fields from the (call hid, slot, direction, call cid, ref cid,
ref hid, op name) rows; the table itself carries no semantic version). -/
structure CallData where
  opName : String
  cid : Digest
  hid : Digest
  inputHids : List (String × Digest)
  inputCids : List (String × Digest)
  outputHids : List (String × Digest)
  outputCids : List (String × Digest)
deriving DecidableEq

/-- The rows saved for a call (`InMemCallStorage.save` /
`SQLiteCallStorage.save` write one row per input/output slot). -/
def callDataOfRec (c : CallRec) : CallData where
  opName := c.opName
  cid := c.cid
  hid := c.hid
  inputHids := c.inputs.map (fun p => (p.1, p.2.hid))
  inputCids := c.inputs.map (fun p => (p.1, p.2.cid))
  outputHids := c.outputs.map (fun p => (p.1, p.2.hid))
  outputCids := c.outputs.map (fun p => (p.1, p.2.cid))

/-- The storage state: the cached and persistent tiers of the `atoms`,
`shapes` and `ops` tables (`CachedDictStorage` wrapping `SQLiteDictStorage`),
the in-memory call cache (`InMemCallStorage`, reachable as
`Storage.call_cache`) and the persistent call table (`SQLiteCallStorage`),
the process-wide context flag, the fresh-uuid counter, and a counter of
user-function executions.  The ops table only needs the set of saved op
names (the detached metadata is keyed by name).  Read-memoization of the
cached tables and the dirty sets are not observable by the modelled
operations and are elided here; `CachedDict` below models them exactly. -/
structure St where
  cacheAtoms : List (Digest × Val)
  persAtoms : List (Digest × Val)
  cacheShapes : List (Digest × Ref)
  persShapes : List (Digest × Ref)
  ops : List String
  callCache : List CallData
  callPersistent : List CallData
  inContext : Bool
  uuid : Nat
  execCount : Nat
deriving DecidableEq

/-- `CachedDictStorage.get` for the atoms table (read-through; the memoizing
write to the cache is value-invisible and elided). -/
def atomsGet (s : St) (cid : Digest) : Res Val :=
  match lookupA cid s.cacheAtoms with
  | some v => .ok v
  | none =>
      match lookupA cid s.persAtoms with
      | some v => .ok v
      | none => .err .keyNotFound

/-- `CachedDictStorage.get` for the shapes table. -/
def shapesGet (s : St) (hid : Digest) : Res Ref :=
  match lookupA hid s.cacheShapes with
  | some r => .ok r
  | none =>
      match lookupA hid s.persShapes with
      | some r => .ok r
      | none => .err .keyNotFound

/-- `CachedDictStorage.exists` (`hid in self.shapes`). -/
def shapesExists (s : St) (hid : Digest) : Bool :=
  (lookupA hid s.cacheShapes).isSome || (lookupA hid s.persShapes).isSome

/-- Writing a ref shape (`self.shapes[hid] = ...`: populates the cache tier). -/
def shapesSet (s : St) (hid : Digest) (r : Ref) : St :=
  { s with cacheShapes := setA hid r s.cacheShapes }

/-- Writing an atom payload (`self.atoms[cid] = serialize(obj)`; the
deterministic codec is modelled as the identity, so the stored blob is the
value itself). -/
def atomsSet (s : St) (cid : Digest) (v : Val) : St :=
  { s with cacheAtoms := setA cid v s.cacheAtoms }

/-- `InMemCallStorage.exists` on the call cache. -/
def callCacheData (s : St) (hid : Digest) : Option CallData :=
  s.callCache.find? (fun cd => decide (cd.hid = hid))

/-- Modelled from the spec (section 4.4: "plus `exists_content(cid)` and
`get_data_content(cid)` used by content-address lookup"; these two methods of
the call cache are absent from the given sources): the data of a cached call
with the given call content id. -/
def callCacheDataContent (s : St) (cid : Digest) : Option CallData :=
  s.callCache.find? (fun cd => decide (cd.cid = cid))

/-- `SQLiteCallStorage.exists` on the persistent call table. -/
def callPersistentData (s : St) (hid : Digest) : Option CallData :=
  s.callPersistent.find? (fun cd => decide (cd.hid = hid))

mutual
/-- `Storage.load_ref(hid, lazy)` (storage.py lines 189-207).  The shape is
read from the shapes table; an atom is returned as a shallow copy when lazy
and otherwise attached to its deserialized payload; for a list the children
are loaded recursively but the returned ref carries `shape.obj` — the stored
(detached) children — exactly as in the source; for a dict the reconstructed
children are returned.  The fuel bounds the recursion through the shapes
table (the Python recursion diverges on a cyclic table). -/
def loadRef (fuel : Nat) (s : St) (hid : Digest) (lazy : Bool) : Res Ref :=
  match fuel with
  | 0 => .err .fuelOut
  | fuel + 1 => do
      let shape ← shapesGet s hid
      match shape with
      | .atomR c h o =>
          if lazy then .ok (.atomR c h o)
          else do
            let v ← atomsGet s c
            .ok (.atomR c h (some v))
      | .listR c h _ elts => do
          let _ ← loadRefList fuel s elts lazy
          .ok (.listR c h true elts)
      | .dictR c h _ items => do
          let obj ← loadRefItems fuel s items lazy
          .ok (.dictR c h true obj)
termination_by structural fuel

/-- The child-loading loop of `load_ref` over a list shape's children. -/
def loadRefList (fuel : Nat) (s : St) (elts : List Ref) (lazy : Bool) : Res (List Ref) :=
  match fuel with
  | 0 => .err .fuelOut
  | fuel + 1 =>
      match elts with
      | [] => .ok []
      | elt :: rest => do
          let r ← loadRef fuel s elt.hid lazy
          let rs ← loadRefList fuel s rest lazy
          .ok (r :: rs)
termination_by structural fuel

/-- The child-loading loop of `load_ref` over a dict shape's items. -/
def loadRefItems (fuel : Nat) (s : St) (items : List (String × Ref)) (lazy : Bool) :
    Res (List (String × Ref)) :=
  match fuel with
  | 0 => .err .fuelOut
  | fuel + 1 =>
      match items with
      | [] => .ok []
      | (k, v) :: rest => do
          let r ← loadRef fuel s v.hid lazy
          let rs ← loadRefItems fuel s rest lazy
          .ok ((k, r) :: rs)
termination_by structural fuel
end

mutual
/-- `Storage.save_ref(ref)` (storage.py lines 165-187): idempotent on hid;
an in-memory atom writes its payload under its cid and its detached shape
under its hid; a composite writes its shape and recurses into the children. -/
def saveRef (s : St) (r : Ref) : St :=
  if shapesExists s r.hid then s
  else
    match r with
    | .atomR c h o =>
        let s1 :=
          match o with
          | some v => atomsSet s c v
          | none => s
        shapesSet s1 h (.atomR c h none)
    | .listR c h m elts =>
        let s1 := shapesSet s h (Ref.detached (.listR c h m elts))
        saveRefList s1 elts
    | .dictR c h m items =>
        let s1 := shapesSet s h (Ref.detached (.dictR c h m items))
        saveRefItems s1 items
termination_by structural r

/-- The child-saving loop of `save_ref` over a list ref's children. -/
def saveRefList (s : St) (elts : List Ref) : St :=
  match elts with
  | [] => s
  | r :: rest => saveRefList (saveRef s r) rest
termination_by structural elts

/-- The child-saving loop of `save_ref` over a dict ref's items. -/
def saveRefItems (s : St) (items : List (String × Ref)) : St :=
  match items with
  | [] => s
  | (_, r) :: rest => saveRefItems (saveRef s r) rest
termination_by structural items
end

mutual
/-- `Storage.unwrap` (storage.py lines 391-407): walk the ref tree
(`recurse_on_ref_collections`) and, at each atom, return its in-memory value
or load it from the store (`_unwrap_atom`, which calls
`load_ref(hid, lazy=False)` and takes its `obj`). -/
def storageUnwrap (fuel : Nat) (s : St) (r : Ref) : Res Val :=
  match r with
  | .atomR _ h o =>
      match o with
      | some v => .ok v
      | none => do
          let r2 ← loadRef fuel s h false
          match r2 with
          | .atomR _ _ (some v) => .ok v
          | _ => .err .integrity
  | .listR _ _ _ elts => do
      let vs ← storageUnwrapList fuel s elts
      .ok (.listV vs)
  | .dictR _ _ _ items => do
      let vs ← storageUnwrapItems fuel s items
      .ok (.dictV vs)
termination_by structural r

/-- `Storage.unwrap` over the children of a list ref. -/
def storageUnwrapList (fuel : Nat) (s : St) (elts : List Ref) : Res (List Val) :=
  match elts with
  | [] => .ok []
  | r :: rest => do
      let v ← storageUnwrap fuel s r
      let vs ← storageUnwrapList fuel s rest
      .ok (v :: vs)
termination_by structural elts

/-- `Storage.unwrap` over the items of a dict ref. -/
def storageUnwrapItems (fuel : Nat) (s : St) (items : List (String × Ref)) :
    Res (List (String × Val)) :=
  match items with
  | [] => .ok []
  | (k, r) :: rest => do
      let v ← storageUnwrap fuel s r
      let vs ← storageUnwrapItems fuel s rest
      .ok ((k, v) :: vs)
termination_by structural items
end

/-- `Storage._get_call_from_data(call_data, lazy)` (storage.py lines
295-312): look the op up in the ops table (`self.ops[op_name]`, a `KeyError`
when absent) and load every input and output ref by its stored hid. -/
def getCallFromData (fuel : Nat) (s : St) (cd : CallData) (lazy : Bool) : Res CallRec :=
  if s.ops.contains cd.opName then do
    let ins ← mapR (fun p => do
      let r ← loadRef fuel s p.2 lazy
      Res.ok (p.1, r)) cd.inputHids
    let outs ← mapR (fun p => do
      let r ← loadRef fuel s p.2 lazy
      Res.ok (p.1, r)) cd.outputHids
    .ok { opName := cd.opName, cid := cd.cid, hid := cd.hid,
          inputs := ins, outputs := outs, sv := none }
  else .err .keyNotFound

/-- `Storage.mget_call(hids, lazy)` (storage.py lines 266-293): for each hid,
take the call data from the call cache when present and from the persistent
call table otherwise (the source's mask/split/merge is this per-hid choice),
then reconstruct each call. -/
def mgetCall (fuel : Nat) (s : St) (hids : List Digest) (lazy : Bool) : Res (List CallRec) :=
  mapR (fun h =>
    match callCacheData s h with
    | some cd => getCallFromData fuel s cd lazy
    | none =>
        match callPersistentData s h with
        | some cd => getCallFromData fuel s cd lazy
        | none => .err .keyNotFound) hids

/-- Modelled from the spec (sections 4.5 and 4.6, from the missing
`wrap_atom` of `model.py`): wrap a plain value as an in-memory atom ref whose
cid is the hash of its serialized bytes and whose hid is the given derived id
or, for values introduced from outside any call, a fresh uuid. -/
def wrapAtom (s : St) (v : Val) (hid : Option Digest) : Ref × St :=
  match hid with
  | some h => (.atomR (.atomId v) h (some v), s)
  | none => (.atomR (.atomId v) (.freshId s.uuid) (some v), { s with uuid := s.uuid + 1 })

/-- `Storage.lookup_call` (storage.py lines 525-574) for an unversioned
storage (`semantic_version = None`): first look the expected call hid up in
the call cache; on a miss look up by call content id and, on a hit, clone the
stored call, rewriting its hid and all its output hids to the derivation
from the new call hid (`get_output_history_ids` over the stored output
names). -/
def lookupCall (fuel : Nat) (s : St) (opName : String) (inputs : List (String × Ref)) :
    Res (Option CallRec) :=
  let sv : Option String := none
  let chid := callHidOf opName inputs sv
  match callCacheData s chid with
  | some cd => do
      let c ← getCallFromData fuel s cd true
      .ok (some c)
  | none =>
      let ccid := callCidOf opName inputs sv
      match callCacheDataContent s ccid with
      | some cd => do
          let proto ← getCallFromData fuel s cd true
          let outIds := outHidsOf chid (cd.outputHids.map (fun p => p.1))
          .ok (some { proto with
            hid := chid,
            outputs := proto.outputs.map (fun p =>
              match lookupA p.1 outIds with
              | some oh => (p.1, p.2.withHid oh)
              | none => p) })
      | none => .ok none

/-- A value passed to the storage: either a plain (raw) value or an already
wrapped ref (the `isinstance(val, Ref)` test in `Storage.construct`).  Raw
containers holding refs are not modelled: raw values are plain trees. -/
inductive Inp where
  | rawv (v : Val)
  | refv (r : Ref)
deriving DecidableEq

/-- The slot names `elts_0, elts_1, ...` of `Storage.get_struct_inputs` for a
list. -/
def listSlot (i : Nat) : String := "elts_" ++ toString i

/-- `Storage.call_internal` on the structural op `__make_list__`, composed
with the tail of `Storage.construct` (append the main call, project the
single output).  On a lookup hit the cached call is reused; otherwise the
builder runs: the output is a list ref over the wrapped children, its cid
the hash of ("list", child cids) (modelled from the spec, section 4.5; the
`__make_list__` function itself is not part of the given sources), and its
hid the derived output hid of the new call. -/
def makeListCall (fuel : Nat) (s : St) (ws : List (String × Ref)) (inputCalls : List CallRec) :
    Res (Ref × List CallRec × St) :=
  do
  let copt ← lookupCall fuel s "__make_list__" ws
  match copt with
  | some c =>
      match c.outputs with
      | (_, r) :: _ => .ok (r, inputCalls ++ [c], s)
      | [] => .err .integrity
  | none =>
      let elts := ws.map (fun p => p.2)
      let ccid := callCidOf "__make_list__" ws none
      let chid := callHidOf "__make_list__" ws none
      let outRef := Ref.listR (.listId (elts.map Ref.cid)) (.outHid chid "output_0") true elts
      let c : CallRec := { opName := "__make_list__", cid := ccid, hid := chid,
                           inputs := ws, outputs := [("output_0", outRef)], sv := none }
      .ok (outRef, inputCalls ++ [c], s)

/-- `Storage.call_internal` on `__make_dict__`, composed with the tail of
`Storage.construct`; the output dict ref's cid is the hash of ("dict",
sorted (key, child cid)) (modelled from the spec, section 4.5). -/
def makeDictCall (fuel : Nat) (s : St) (ws : List (String × Ref)) (inputCalls : List CallRec) :
    Res (Ref × List CallRec × St) :=
  do
  let copt ← lookupCall fuel s "__make_dict__" ws
  match copt with
  | some c =>
      match c.outputs with
      | (_, r) :: _ => .ok (r, inputCalls ++ [c], s)
      | [] => .err .integrity
  | none =>
      let ccid := callCidOf "__make_dict__" ws none
      let chid := callHidOf "__make_dict__" ws none
      let outRef := Ref.dictR (.dictId (sortByName (ws.map (fun p => (p.1, p.2.cid)))))
        (.outHid chid "output_0") true ws
      let c : CallRec := { opName := "__make_dict__", cid := ccid, hid := chid,
                           inputs := ws, outputs := [("output_0", outRef)], sv := none }
      .ok (outRef, inputCalls ++ [c], s)

mutual
/-- `Storage.construct(tp, val)` (storage.py lines 464-477): a ref passes
through; an atom-typed value is wrapped as a fresh atom ref; a container
value is built by calling `call_internal` on the structural builder op
(`__make_list__` / `__make_dict__`) over the recursively constructed
children (`get_struct_inputs` / `get_struct_tps`), appending the main call
to the collected calls and returning the builder call's single output.
The fuel bounds the recursion depth of the whole pipeline. -/
def construct (fuel : Nat) (s : St) (tp : Ty) (v : Inp) : Res (Ref × List CallRec × St) :=
  match fuel with
  | 0 => .err .fuelOut
  | fuel + 1 =>
      match v with
      | .refv r => .ok (r, [], s)
      | .rawv v =>
          match tp with
          | .atomT =>
              let (r, s1) := wrapAtom s v none
              .ok (r, [], s1)
          | .listT elt =>
              match v with
              | .listV elts => do
                  let (ws, calls, s1) ← constructListInputs fuel s elt elts 0
                  makeListCall fuel s1 ws calls
              | _ => .err .typeMismatch
          | .dictT _ vt =>
              match v with
              | .dictV items => do
                  let (ws, calls, s1) ← constructDictInputs fuel s vt items
                  makeDictCall fuel s1 ws calls
              | _ => .err .typeMismatch
termination_by structural fuel

/-- The recursive wrapping of a list value's children: slot `elts_i` gets the
constructed `i`-th element (all annotated with the element type). -/
def constructListInputs (fuel : Nat) (s : St) (elt : Ty) (vs : List Val) (i : Nat) :
    Res (List (String × Ref) × List CallRec × St) :=
  match fuel with
  | 0 => .err .fuelOut
  | fuel + 1 =>
      match vs with
      | [] => .ok ([], [], s)
      | v :: rest => do
          let (r, cs, s1) ← construct fuel s elt (.rawv v)
          let (ws, cs2, s2) ← constructListInputs fuel s1 elt rest (i + 1)
          .ok ((listSlot i, r) :: ws, cs ++ cs2, s2)
termination_by structural fuel

/-- The recursive wrapping of a dict value's items: the dict's own keys are
the slot names (all annotated with the value type). -/
def constructDictInputs (fuel : Nat) (s : St) (vt : Ty) (items : List (String × Val)) :
    Res (List (String × Ref) × List CallRec × St) :=
  match fuel with
  | 0 => .err .fuelOut
  | fuel + 1 =>
      match items with
      | [] => .ok ([], [], s)
      | (k, v) :: rest => do
          let (r, cs, s1) ← construct fuel s vt (.rawv v)
          let (ws, cs2, s2) ← constructDictInputs fuel s1 vt rest
          .ok ((k, r) :: ws, cs ++ cs2, s2)
termination_by structural fuel
end

/-- `Storage.call_internal` on the structural op `__get_list_item__`,
returning (single output, main call, state).  The `attr` index is wrapped as
a fresh atom (`construct` on an atom annotation); on a lookup miss the
builtin returns the `attr`-th child of `obj` (modelled from the spec,
glossary "Structural op"; the builtin's function is not part of the given
sources), re-assigned to the derived output hid. -/
def getListItemCall (fuel : Nat) (s : St) (obj : Ref) (idx : Nat) :
    Res (Ref × CallRec × St) :=
  do
  let (attrRef, s1) := wrapAtom s (.atomV idx) none
  let ws := [("obj", obj), ("attr", attrRef)]
  let copt ← lookupCall fuel s1 "__get_list_item__" ws
  match copt with
  | some c =>
      match lookupA "output_0" c.outputs with
      | some r => .ok (r, c, s1)
      | none => .err .integrity
  | none =>
      match obj with
      | .listR _ _ _ elts =>
          match elts.get? idx with
          | some child =>
              let ccid := callCidOf "__get_list_item__" ws none
              let chid := callHidOf "__get_list_item__" ws none
              let outRef := child.withHid (.outHid chid "output_0")
              let c : CallRec := { opName := "__get_list_item__", cid := ccid, hid := chid,
                                   inputs := ws, outputs := [("output_0", outRef)], sv := none }
              .ok (outRef, c, s1)
          | none => .err .integrity
      | _ => .err .typeMismatch

/-- `Storage.call_internal` on the structural op `__get_dict_value__`; the
plain string `key` input is wrapped as a fresh atom ref (its declared
annotation `tp.key` is an atom type; `get_struct_inputs` requires dict keys
to be strings). -/
def getDictValueCall (fuel : Nat) (s : St) (obj : Ref) (key : String) :
    Res (Ref × CallRec × St) :=
  do
  let (keyRef, s1) := wrapAtom s (.atomS key) none
  let ws := [("obj", obj), ("key", keyRef)]
  let copt ← lookupCall fuel s1 "__get_dict_value__" ws
  match copt with
  | some c =>
      match lookupA "output_0" c.outputs with
      | some r => .ok (r, c, s1)
      | none => .err .integrity
  | none =>
      match obj with
      | .dictR _ _ _ items =>
          match lookupA key items with
          | some child =>
              let ccid := callCidOf "__get_dict_value__" ws none
              let chid := callHidOf "__get_dict_value__" ws none
              let outRef := child.withHid (.outHid chid "output_0")
              let c : CallRec := { opName := "__get_dict_value__", cid := ccid, hid := chid,
                                   inputs := ws, outputs := [("output_0", outRef)], sv := none }
              .ok (outRef, c, s1)
          | none => .err .keyNotFound
      | _ => .err .typeMismatch

mutual
/-- `Storage.destruct(ref, tp)` (storage.py lines 479-523): an atom passes
through; a composite is destructured by emitting one `__get_list_item__` /
`__get_dict_value__` call per child, recursing on each extracted child, and
rebuilding the composite with the new (correctly-hid'd) children, in memory. -/
def destruct (fuel : Nat) (s : St) (r : Ref) (tp : Ty) : Res (Ref × List CallRec × St) :=
  match fuel with
  | 0 => .err .fuelOut
  | fuel + 1 =>
      match r with
      | .atomR c h o => .ok (.atomR c h o, [], s)
      | .listR c h m elts =>
          match tp with
          | .listT elt => do
              let (newElts, calls, s1) := (← destructListElts fuel s (.listR c h m elts) elt elts 0)
              .ok (.listR c h true newElts, calls, s1)
          | _ => .err .typeMismatch
      | .dictR c h m items =>
          match tp with
          | .dictT _ vt => do
              let (newItems, calls, s1) := (← destructDictItems fuel s (.dictR c h m items) vt items)
              .ok (.dictR c h true newItems, calls, s1)
          | _ => .err .typeMismatch
termination_by structural fuel

/-- The per-element loop of `destruct` over a list ref: one getitem call per
index, then recursive destructuring of the extracted element. -/
def destructListElts (fuel : Nat) (s : St) (parent : Ref) (elt : Ty) (elts : List Ref) (i : Nat) :
    Res (List Ref × List CallRec × St) :=
  match fuel with
  | 0 => .err .fuelOut
  | fuel + 1 =>
      match elts with
      | [] => .ok ([], [], s)
      | _ :: rest => do
          let (newElt, itemCall, s1) := (← getListItemCall fuel s parent i)
          let (newElt2, subCalls, s2) := (← destruct fuel s1 newElt elt)
          let (restElts, restCalls, s3) := (← destructListElts fuel s2 parent elt rest (i + 1))
          .ok (newElt2 :: restElts, itemCall :: (subCalls ++ restCalls), s3)
termination_by structural fuel

/-- The per-item loop of `destruct` over a dict ref. -/
def destructDictItems (fuel : Nat) (s : St) (parent : Ref) (vt : Ty)
    (items : List (String × Ref)) : Res (List (String × Ref) × List CallRec × St) :=
  match fuel with
  | 0 => .err .fuelOut
  | fuel + 1 =>
      match items with
      | [] => .ok ([], [], s)
      | (k, _) :: rest => do
          let (newV, valueCall, s1) := (← getDictValueCall fuel s parent k)
          let (newV2, subCalls, s2) := (← destruct fuel s1 newV vt)
          let (restItems, restCalls, s3) := (← destructDictItems fuel s2 parent vt rest)
          .ok ((k, newV2) :: restItems, valueCall :: (subCalls ++ restCalls), s3)
termination_by structural fuel
end

/-- Modelled from the spec (section 4.8 step 4, from the missing
`parse_returns` of `utils.py`): turn the raw returned tuple into the slot map
over the declared output names with their declared annotations, failing when
the arity disagrees. -/
def parseReturns (names : List String) (tys : List Ty) (rets : List Val) :
    Res (List (String × Ty × Val)) :=
  match names, tys, rets with
  | [], [], [] => .ok []
  | n :: ns, t :: ts, v :: vs => do
      let rest ← parseReturns ns ts vs
      .ok ((n, t, v) :: rest)
  | _, _, _ => .err .arityMismatch

/-- The output-wrapping loop of `Storage.call_internal` (storage.py lines
800-812): an atom-typed output is wrapped at its derived output hid; a
composite output is constructed (its construction calls are discarded, as in
the source), re-assigned to the derived output hid, and destructured,
collecting the destructuring calls.  (The `isinstance(v, Ref)` branch is
unreachable here: modelled user functions return plain values.) -/
def wrapOutputs (fuel : Nat) (s : St) (chid : Digest) (outs : List (String × Ty × Val)) :
    Res (List (String × Ref) × List CallRec × St) :=
  match outs with
  | [] => .ok ([], [], s)
  | (k, tpk, v) :: rest =>
      match tpk with
      | .atomT => do
          let (r, s1) := wrapAtom s v (some (.outHid chid k))
          let (ws, cs, s2) := (← wrapOutputs fuel s1 chid rest)
          .ok ((k, r) :: ws, cs, s2)
      | _ => do
          let (start, _, s1) := (← construct fuel s tpk (.rawv v))
          let start2 := start.withHid (.outHid chid k)
          let (final, cs, s2) := (← destruct fuel s1 start2 tpk)
          let (ws, cs2, s3) := (← wrapOutputs fuel s2 chid rest)
          .ok ((k, final) :: ws, cs ++ cs2, s3)

/-- The input-wrapping loop of `Storage.call_internal` (storage.py lines
690-694): construct each storage input at its declared annotation,
accumulating the structural calls. -/
def constructInputs (fuel : Nat) (s : St) (tps : List (String × Ty)) :
    List (String × Inp) → Res (List (String × Ref) × List CallRec × St)
  | [] => .ok ([], [], s)
  | (k, v) :: rest => do
      match lookupA k tps with
      | some tpk => do
          let (r, cs, s1) := (← construct fuel s tpk v)
          let (ws, cs2, s2) := (← constructInputs fuel s1 tps rest)
          .ok ((k, r) :: ws, cs ++ cs2, s2)
      | none => .err .keyNotFound

/-- The side-effect re-fingerprinting loop of `Storage.call_internal`
(storage.py lines 753-760): for each input slot, re-construct the post-call
raw value at the declared annotation and take the resulting cid
(`self.construct(tp=storage_tps[k], val=v)[0].cid`). -/
def refingerprint (fuel : Nat) (s : St) (tps : List (String × Ty)) :
    List (String × Val) → Res (List (String × Digest) × St)
  | [] => .ok ([], s)
  | (k, v) :: rest => do
      match lookupA k tps with
      | some tpk => do
          let (r, _, s1) := (← construct fuel s tpk (.rawv v))
          let (cs, s2) := (← refingerprint fuel s1 tps rest)
          .ok ((k, r.cid) :: cs, s2)
      | none => .err .keyNotFound

/-- `Storage.call_internal` (storage.py lines 676-822) for a user
(non-structural) op on an unversioned storage: wrap the inputs, look the
call up (returning the cached call's outputs on a hit), and otherwise
execute: snapshot the input cids, unwrap the inputs, run the user function
on the unwrapped positional arguments, re-fingerprint the (possibly
mutated) inputs and fail with the side-effect error unless the op allows
side effects or no input cid changed, then parse and wrap the outputs at
their derived output hids and assemble the new call record.  The execution
counter increments exactly when the user function runs. -/
def callInternalUser (fuel : Nat) (s : St) (op : UOp) (storageInputs : List (String × Inp))
    (storageTps : List (String × Ty)) :
    Res (List (String × Ref) × CallRec × List CallRec × St) := do
  let (wins, inputCalls, s1) := (← constructInputs fuel s storageTps storageInputs)
  let copt ← lookupCall fuel s1 op.name wins
  match copt with
  | some c => .ok (c.outputs, c, inputCalls, s1)
  | none => do
      let cidsBefore := wins.map (fun p => (p.1, p.2.cid))
      let raws ← mapR (fun p => do
        let v ← storageUnwrap fuel s1 p.2
        Res.ok (p.1, v)) wins
      let (rets, postArgs) := op.fn (raws.map (fun p => p.2))
      let s2 := { s1 with execCount := s1.execCount + 1 }
      let s3 ← (if op.allowSideEffects then .ok s2 else do
        if postArgs.length = wins.length then do
          let (cidsAfter, s3) := (← refingerprint fuel s2 storageTps
            ((raws.map (fun p => p.1)).zip postArgs))
          if cidsBefore ≠ cidsAfter then .err .sideEffectDetected else .ok s3
        else .err .arityMismatch)
      let outsDict ← parseReturns op.outputNames op.outTys rets
      let ccid := callCidOf op.name wins none
      let chid := callHidOf op.name wins none
      let (wouts, outputCalls, s4) := (← wrapOutputs fuel s3 chid outsDict)
      let main : CallRec := { opName := op.name, cid := ccid, hid := chid,
                              inputs := wins, outputs := wouts, sv := none }
      .ok (wouts, main, inputCalls ++ outputCalls, s4)

/-- `Storage.save_call(call)` (storage.py lines 248-264): idempotent on the
call hid (`self.calls.exists` checks the cache and then the persistent
table); a new op is cached by name; every input and output ref is saved;
finally the call's rows enter the in-memory call cache
(`CachedCallStorage.save`). -/
def saveCall (s : St) (c : CallRec) : St :=
  if (callCacheData s c.hid).isSome || (callPersistentData s c.hid).isSome then s
  else
    let s1 := if s.ops.contains c.opName then s else { s with ops := c.opName :: s.ops }
    let s2 := saveRefList s1 (c.inputs.map (fun p => p.2) ++ c.outputs.map (fun p => p.2))
    { s2 with callCache := callDataOfRec c :: s2.callCache }

/-- Saving a list of calls in order (the `save_calls` loop of
`Storage.call`). -/
def saveCalls (s : St) (cs : List CallRec) : St :=
  match cs with
  | [] => s
  | c :: rest => saveCalls (saveCall s c) rest

/-- `InMemCallStorage.drop(hid)` (storage_utils.py lines 256-266): raises on
a hid absent from the cache, otherwise removes all of the call's rows. -/
def callCacheDrop (s : St) (hid : Digest) : Res St :=
  if (callCacheData s hid).isSome then
    .ok { s with callCache := s.callCache.filter (fun cd => decide (cd.hid ≠ hid)) }
  else .err .keyNotFound

/-- `SQLiteCallStorage.drop(hid)` (storage_utils.py lines 450-452): a SQL
DELETE, a no-op on an absent hid. -/
def callPersistentDrop (s : St) (hid : Digest) : St :=
  { s with callPersistent := s.callPersistent.filter (fun cd => decide (cd.hid ≠ hid)) }

/-- The call hids of the rows whose direction is "in" and whose ref hid is
among the given ones (`get_consumer_hids`). -/
def consumerHids (tbl : List CallData) (refHids : List Digest) : List Digest :=
  ((tbl.filter (fun cd => cd.inputHids.any (fun p => refHids.any (fun h => decide (h = p.2))))).map
    (fun cd => cd.hid)).dedup

/-- The call hids of the rows whose direction is "out" and whose ref hid is
among the given ones (`get_creator_hids`). -/
def creatorHids (tbl : List CallData) (refHids : List Digest) : List Digest :=
  ((tbl.filter (fun cd => cd.outputHids.any (fun p => refHids.any (fun h => decide (h = p.2))))).map
    (fun cd => cd.hid)).dedup

/-- The ref hids output by the given calls (`get_output_hids`). -/
def outputHidsOfCalls (tbl : List CallData) (callHids : List Digest) : List Digest :=
  (((tbl.filter (fun cd => callHids.any (fun h => decide (h = cd.hid)))).map
    (fun cd => cd.outputHids.map (fun p => p.2))).flatten).dedup

/-- One round of the forward transitive closure of
`InMemCallStorage.get_dependents` (storage_utils.py lines 379-396), iterated
on fuel until no new call or ref hids appear. -/
def getDependentsLoop (fuel : Nat) (tbl : List CallData)
    (refsAcc callsAcc curRefs curCalls : List Digest) : List Digest × List Digest :=
  match fuel with
  | 0 => (refsAcc, callsAcc)
  | fuel + 1 =>
      let callsUpd := (consumerHids tbl curRefs).filter
        (fun h => decide (¬ callsAcc.any (fun h2 => decide (h2 = h))))
      let refsUpd := (outputHidsOfCalls tbl curCalls).filter
        (fun h => decide (¬ refsAcc.any (fun h2 => decide (h2 = h))))
      if callsUpd.isEmpty && refsUpd.isEmpty then (refsAcc, callsAcc)
      else getDependentsLoop fuel tbl (refsAcc ++ refsUpd) (callsAcc ++ callsUpd) refsUpd callsUpd

/-- `get_dependents(ref_hids, call_hids)` over the persistent call table. -/
def getDependents (fuel : Nat) (tbl : List CallData) (refHids callHids : List Digest) :
    List Digest × List Digest :=
  getDependentsLoop fuel tbl refHids callHids refHids callHids

/-- The first loop of `Storage.drop_calls` (storage.py lines 338-341):
drop from the call cache each deduplicated hid that exists there (the
unguarded `InMemCallStorage.drop` would raise). -/
def dropCallsCacheLoop (s : St) : List Digest → Res St
  | [] => .ok s
  | h :: rest => do
      let s1 ← if (callCacheData s h).isSome then callCacheDrop s h else .ok s
      dropCallsCacheLoop s1 rest

/-- The second loop of `Storage.drop_calls` (storage.py lines 342-345):
drop from the persistent table each hid that exists there. -/
def dropCallsPersistentLoop (s : St) : List Digest → St
  | [] => s
  | h :: rest =>
      dropCallsPersistentLoop
        (if (callPersistentData s h).isSome then callPersistentDrop s h else s) rest

/-- `Storage.drop_calls(hids, delete_dependents)` (storage.py lines
317-346): deduplicate the given hids, optionally close them forward under
dependents (computed over the persistent table), then drop the existing
ones from the cache and from the persistent table. -/
def dropCalls (fuel : Nat) (s : St) (hidsIn : List Digest) (deleteDependents : Bool) : Res St :=
  let hids := hidsIn.dedup
  let hids :=
    if deleteDependents then (hids ++ (getDependents fuel s.callPersistent [] hids).2).dedup
    else hids
  do
    let s1 ← dropCallsCacheLoop s hids
    .ok (dropCallsPersistentLoop s1 hids)

/-- Whether a ref hid appears in any row of the persistent call table. -/
def refHidInCalls (tbl : List CallData) (h : Digest) : Bool :=
  tbl.any (fun cd =>
    cd.inputHids.any (fun p => decide (p.2 = h)) ||
    cd.outputHids.any (fun p => decide (p.2 = h)))

/-- Whether a ref cid appears in any row of the persistent call table. -/
def refCidInCalls (tbl : List CallData) (c : Digest) : Bool :=
  tbl.any (fun cd =>
    cd.inputCids.any (fun p => decide (p.2 = c)) ||
    cd.outputCids.any (fun p => decide (p.2 = c)))

/-- `Storage.get_creators(ref_hids)` (storage.py lines 351-356): raises the
in-context guard (`NotImplementedError("Method not supported while in a
context.")`, the spec's `NotAllowedInContext`), otherwise reconstructs the
calls whose outputs include one of the given ref hids, from the persistent
table. -/
def getCreators (fuel : Nat) (s : St) (refHids : List Digest) : Res (List CallRec) :=
  if s.inContext then .err .notAllowedInContext
  else mgetCall fuel s (creatorHids s.callPersistent refHids) true

/-- `Storage.get_consumers(ref_hids)` (storage.py lines 358-363). -/
def getConsumers (fuel : Nat) (s : St) (refHids : List Digest) : Res (List CallRec) :=
  if s.inContext then .err .notAllowedInContext
  else mgetCall fuel s (consumerHids s.callPersistent refHids) true

/-- `Storage.get_orphans()` (storage.py lines 365-374): the keys of the
persistent shapes table whose hid appears in no row of the persistent call
table; guarded in-context. -/
def getOrphans (s : St) : Res (List Digest) :=
  if s.inContext then .err .notAllowedInContext
  else .ok ((s.persShapes.map (fun p => p.1)).filter
    (fun h => ¬ refHidInCalls s.callPersistent h))

/-- `Storage.get_unreferenced_cids()` (storage.py lines 376-386): the keys
of the persistent atoms table appearing in no call row and in no persistent
shape's cid; guarded in-context. -/
def getUnreferencedCids (s : St) : Res (List Digest) :=
  if s.inContext then .err .notAllowedInContext
  else .ok ((s.persAtoms.map (fun p => p.1)).filter
    (fun c => ¬ refCidInCalls s.callPersistent c &&
              ¬ (s.persShapes.map (fun p => p.2.cid)).any (fun c2 => decide (c2 = c))))

/-- Modelled from the spec (section 6, "Op": `get_ordered_outputs`): the
call's outputs in the op's declared output order; a `KeyError` when a
declared output slot is missing. -/
def getOrderedOutputs (op : UOp) (outputs : List (String × Ref)) : Res (List Ref) :=
  mapR (fun n =>
    match lookupA n outputs with
    | some r => .ok r
    | none => .err .keyNotFound) op.outputNames

/-- `Storage.parse_args` (storage.py lines 612-674) restricted to plain
positional signatures (no defaults, no variadic slots, no
`Ignore`/`NewArgDefault` markers): every argument binds positionally to its
slot and every bound argument is a storage input with its declared
annotation. -/
def parseArgsPlain (op : UOp) (args : List Inp) :
    Res (List (String × Inp) × List (String × Ty)) :=
  if args.length = op.params.length then
    .ok ((op.params.map (fun p => p.1)).zip args, op.params)
  else .err .arityMismatch

/-- The value returned by `Storage.call`: a single bare ref, or the ordered
tuple of output refs. -/
inductive CallResult where
  | single (r : Ref)
  | multi (rs : List Ref)
deriving DecidableEq

/-- `Storage.call` (storage.py lines 1010-1038): parse the arguments, run
`call_internal`, optionally save the main call and then the auxiliary calls
(the `save_calls` config), order the outputs, and return the single output
bare when there is exactly one and the ordered tuple otherwise. -/
def storageCall (fuel : Nat) (s : St) (op : UOp) (args : List Inp) (saveFlag : Bool) :
    Res (CallResult × St) := do
  let (storageInputs, storageTps) := (← parseArgsPlain op args)
  let (_, mainCall, calls, s1) := (← callInternalUser fuel s op storageInputs storageTps)
  let s2 := if saveFlag then saveCalls (saveCall s1 mainCall) calls else s1
  let ord ← getOrderedOutputs op mainCall.outputs
  match ord with
  | [r] => .ok (.single r, s2)
  | rs => .ok (.multi rs, s2)

/-- A fresh storage state: empty tables, no open context
(`Storage.__init__` on an empty database). -/
def emptySt : St where
  cacheAtoms := []
  persAtoms := []
  cacheShapes := []
  persShapes := []
  ops := []
  callCache := []
  callPersistent := []
  inContext := false
  uuid := 0
  execCount := 0

/-- `CachedDictStorage` (storage_utils.py lines 167-212): a persistent
string-keyed table wrapped with an in-memory cache and a dirty set.  The
persistent tier models `SQLiteDictStorage` (get / upsert / delete /
exists over the key column); `sess.d()` inside `SQLiteDictStorage.set` is a
debug hook with no table effect. -/
structure CachedDict (α : Type) where
  persistent : List (String × α)
  cache : List (String × α)
  dirtyKeys : List String
deriving DecidableEq

/-- A freshly constructed `CachedDictStorage` over a persistent table:
empty cache, empty dirty set. -/
def CachedDict.init {α : Type} (persistent : List (String × α)) : CachedDict α :=
  { persistent := persistent, cache := [], dirtyKeys := [] }

/-- `CachedDictStorage.get` (lines 179-185): a cache hit returns the cached
value; a miss reads through to the persistent table (raising `KeyError`
when absent there too) and memoizes the value. -/
def CachedDict.get {α : Type} (d : CachedDict α) (k : String) : Res (α × CachedDict α) :=
  match lookupA k d.cache with
  | some v => .ok (v, d)
  | none =>
      match lookupA k d.persistent with
      | some v => .ok (v, { d with cache := setA k v d.cache })
      | none => .err .keyNotFound

/-- `CachedDictStorage.set` (lines 187-189): write the cache and mark the
key dirty; the persistent table is untouched. -/
def CachedDict.set {α : Type} (d : CachedDict α) (k : String) (v : α) : CachedDict α :=
  { d with cache := setA k v d.cache,
           dirtyKeys := if d.dirtyKeys.contains k then d.dirtyKeys else k :: d.dirtyKeys }

/-- The write loop of `CachedDictStorage.commit`: upsert the cached value of
each dirty key into the persistent table (`self.persistent.set(key,
self.cache[key], conn=conn)`; the `KeyError` of `self.cache[key]` on a
dirty key absent from the cache is modelled as a failure). -/
def commitLoop {α : Type} (cache : List (String × α)) (p : List (String × α)) :
    List String → Res (List (String × α))
  | [] => .ok p
  | k :: rest =>
      match lookupA k cache with
      | some v => commitLoop cache (setA k v p) rest
      | none => .err .keyNotFound

/-- `CachedDictStorage.commit(conn)` (lines 191-194): write every dirty
entry to the persistent table and clear the dirty set. -/
def CachedDict.commit {α : Type} (d : CachedDict α) : Res (CachedDict α) := do
  let p ← commitLoop d.cache d.persistent d.dirtyKeys
  .ok { d with persistent := p, dirtyKeys := [] }

/-- `CachedDictStorage.drop` (lines 200-205): remove the key from the cache,
from the dirty set, and from the persistent table. -/
def CachedDict.drop {α : Type} (d : CachedDict α) (k : String) : CachedDict α :=
  { persistent := dropA k d.persistent,
    cache := dropA k d.cache,
    dirtyKeys := d.dirtyKeys.filter (fun k2 => decide (k2 ≠ k)) }

/-- `CachedDictStorage.exists` (lines 207-212): a cache hit is true,
otherwise ask the persistent table. -/
def CachedDict.exists {α : Type} (d : CachedDict α) (k : String) : Bool :=
  (lookupA k d.cache).isSome || (lookupA k d.persistent).isSome

/-- `CachedDictStorage.clear` (lines 196-198). -/
def CachedDict.clear {α : Type} (d : CachedDict α) : CachedDict α :=
  { d with cache := [], dirtyKeys := [] }

/-- Whether a `Res` is a success. -/
def Res.isOk {α : Type} : Res α → Bool
  | .ok _ => true
  | .err _ => false

mutual
/-- A type annotation consistent with a plain value (spec section 8:
"∀ value v, ∀ type T consistent with v"): atoms for leaves, `ListType` /
`DictType` for containers, matching recursively. -/
def tyOk (tp : Ty) (v : Val) : Bool :=
  match v with
  | .atomV _ => tp = .atomT
  | .atomS _ => tp = .atomT
  | .listV elts =>
      match tp with
      | .listT elt => tyOkList elt elts
      | _ => false
  | .dictV items =>
      match tp with
      | .dictT _ vt => tyOkItems vt items
      | _ => false
termination_by structural v

/-- `tyOk` over the elements of a list value. -/
def tyOkList (elt : Ty) (vs : List Val) : Bool :=
  match vs with
  | [] => true
  | v :: rest => tyOk elt v && tyOkList elt rest
termination_by structural vs

/-- `tyOk` over the items of a dict value. -/
def tyOkItems (vt : Ty) (items : List (String × Val)) : Bool :=
  match items with
  | [] => true
  | (_, v) :: rest => tyOk vt v && tyOkItems vt rest
termination_by structural items
end

mutual
/-- The content id that the identity scheme (spec section 4.5) assigns to a
plain value at a given consistent type: atoms hash their serialized bytes,
lists hash ("list", child cids), dicts hash ("dict", sorted (key, child
cid)).  (On an inconsistent type the result is arbitrary.) -/
def cidOfVal (tp : Ty) (v : Val) : Digest :=
  match v with
  | .atomV n => .atomId (.atomV n)
  | .atomS t => .atomId (.atomS t)
  | .listV elts =>
      match tp with
      | .listT elt => .listId (cidOfValList elt elts)
      | _ => .atomId (.listV elts)
  | .dictV items =>
      match tp with
      | .dictT _ vt => .dictId (sortByName (cidOfValItems vt items))
      | _ => .atomId (.dictV items)
termination_by structural v

/-- `cidOfVal` over the elements of a list value. -/
def cidOfValList (elt : Ty) (vs : List Val) : List Digest :=
  match vs with
  | [] => []
  | v :: rest => cidOfVal elt v :: cidOfValList elt rest
termination_by structural vs

/-- `cidOfVal` over the items of a dict value. -/
def cidOfValItems (vt : Ty) (items : List (String × Val)) : List (String × Digest) :=
  match items with
  | [] => []
  | (k, v) :: rest => (k, cidOfVal vt v) :: cidOfValItems vt rest
termination_by structural items
end

mutual
/-- A fuel bound sufficient for `construct` on a raw value. -/
def valDepth (v : Val) : Nat :=
  match v with
  | .atomV _ => 1
  | .atomS _ => 1
  | .listV elts => 1 + valDepthList elts
  | .dictV items => 1 + valDepthItems items
termination_by structural v

/-- Fuel bound for `constructListInputs`. -/
def valDepthList (vs : List Val) : Nat :=
  match vs with
  | [] => 1
  | v :: rest => 1 + valDepth v + valDepthList rest
termination_by structural vs

/-- Fuel bound for `constructDictInputs`. -/
def valDepthItems (items : List (String × Val)) : Nat :=
  match items with
  | [] => 1
  | (_, v) :: rest => 1 + valDepth v + valDepthItems rest
termination_by structural items
end

mutual
/-- The plain value of a fully in-memory ref (no storage access); `none`
when some atom is detached. -/
def pureVal (r : Ref) : Option Val :=
  match r with
  | .atomR _ _ o => o
  | .listR _ _ _ elts =>
      match pureValList elts with
      | some vs => some (.listV vs)
      | none => none
  | .dictR _ _ _ items =>
      match pureValItems items with
      | some vs => some (.dictV vs)
      | none => none
termination_by structural r

/-- `pureVal` over a list ref's children. -/
def pureValList (elts : List Ref) : Option (List Val) :=
  match elts with
  | [] => some []
  | r :: rest =>
      match pureVal r, pureValList rest with
      | some v, some vs => some (v :: vs)
      | _, _ => none
termination_by structural elts

/-- `pureVal` over a dict ref's items. -/
def pureValItems (items : List (String × Ref)) : Option (List (String × Val)) :=
  match items with
  | [] => some []
  | (k, r) :: rest =>
      match pureVal r, pureValItems rest with
      | some v, some vs => some ((k, v) :: vs)
      | _, _ => none
termination_by structural items
end

/-- The invariant of claim C6: every dirty key is present in the in-memory
cache. -/
def dirtySubCache {α : Type} (d : CachedDict α) : Prop :=
  ∀ k, k ∈ d.dirtyKeys → (lookupA k d.cache).isSome = true

/-- A placeholder call record (used as the failure arm of projections of
concrete runs; the runs in question succeed, so it is never the value). -/
def junkCall : CallRec where
  opName := ""
  cid := .freshId 0
  hid := .freshId 0
  inputs := []
  outputs := []
  sv := none

/-- The op `inc(x: int) -> int: return x + 1` of the spec's memoization
scenario (section 8, scenario 1). -/
def exIncOp : UOp where
  name := "inc"
  allowSideEffects := false
  params := [("x", .atomT)]
  outputNames := ["output_0"]
  outTys := [.atomT]
  fn := fun vs => (match vs with | [.atomV n] => [Val.atomV (n + 1)] | _ => [], vs)

/-- An op with two outputs, for the tuple-return branch of `Storage.call`. -/
def exPairOp : UOp where
  name := "pair"
  allowSideEffects := false
  params := [("x", .atomT)]
  outputNames := ["output_0", "output_1"]
  outTys := [.atomT, .atomT]
  fn := fun vs => (match vs with | [.atomV n] => [Val.atomV n, Val.atomV (n + 1)] | _ => [], vs)

/-- An op that appends to its list input in place (the spec's side-effect
scenario, section 8, scenario 4). -/
def exMutOp : UOp where
  name := "bad"
  allowSideEffects := false
  params := [("xs", .listT .atomT)]
  outputNames := ["output_0"]
  outTys := [.atomT]
  fn := fun vs =>
    (match vs with | [.listV l] => [Val.atomV l.length] | _ => [],
     match vs with | [.listV l] => [Val.listV (l ++ [Val.atomV 0])] | _ => vs)

/-- A wrapped atom ref for the value 41. -/
def exX41 : Ref := .atomR (.atomId (.atomV 41)) (.freshId 1000) (some (.atomV 41))

/-- A second ref for the value 41 with the same cid but another provenance
(a different hid). -/
def exY41 : Ref := .atomR (.atomId (.atomV 41)) (.freshId 2000) (some (.atomV 41))

/-- A concrete in-memory list ref holding one atom (for the load-path
evaluation). -/
def exListRef : Ref :=
  .listR (.listId [.atomId (.atomV 5)]) (.freshId 100) true
    [.atomR (.atomId (.atomV 5)) (.freshId 101) (some (.atomV 5))]

/-- The first call of the memoization scenario: `inc` on the wrapped 41. -/
def exIncRun : Res (List (String × Ref) × CallRec × List CallRec × St) :=
  callInternalUser 8 emptySt exIncOp [("x", .refv exX41)] [("x", .atomT)]

/-- The outputs of the first `inc` call. -/
def exIncOuts : List (String × Ref) :=
  match exIncRun with
  | .ok (o, _, _, _) => o
  | .err _ => []

/-- The main call record of the first `inc` call. -/
def exIncCall : CallRec :=
  match exIncRun with
  | .ok (_, c, _, _) => c
  | .err _ => junkCall

/-- The auxiliary calls of the first `inc` call. -/
def exIncAux : List CallRec :=
  match exIncRun with
  | .ok (_, _, a, _) => a
  | .err _ => []

/-- The state after the first `inc` call. -/
def exIncSt : St :=
  match exIncRun with
  | .ok (_, _, _, s) => s
  | .err _ => emptySt

/-- The state after recording the first `inc` call. -/
def exIncSaved : St := saveCall exIncSt exIncCall

/-- A concrete run of `Storage.call` on the two-output op. -/
def exPairRun : Res (CallResult × St) :=
  storageCall 8 emptySt exPairOp [.rawv (.atomV 3)] false

/-- The result of the two-output `Storage.call`. -/
def exPairRes : CallResult :=
  match exPairRun with
  | .ok (r, _) => r
  | .err _ => .multi []

/-- The state after the two-output `Storage.call`. -/
def exPairSt : St :=
  match exPairRun with
  | .ok (_, s) => s
  | .err _ => emptySt

/-- A concrete run of `Storage.call` on `inc` (single output). -/
def exIncCallRun : Res (CallResult × St) :=
  storageCall 8 emptySt exIncOp [.rawv (.atomV 41)] false

/-- The result of the single-output `Storage.call`. -/
def exIncCallRes : CallResult :=
  match exIncCallRun with
  | .ok (r, _) => r
  | .err _ => .multi []

/-- The state after the single-output `Storage.call`. -/
def exIncCallSt : St :=
  match exIncCallRun with
  | .ok (_, s) => s
  | .err _ => emptySt

/-- A placeholder ref (failure arm of projections; never the value on the
success paths where it is used). -/
def junkRef : Ref := .atomR (.freshId 0) (.freshId 0) none

/-- The ref produced by a successful `loadRef`, with a placeholder on
failure. -/
def loadOrJunk (fuel : Nat) (s : St) (hid : Digest) (lazy : Bool) : Ref :=
  match loadRef fuel s hid lazy with
  | .ok r => r
  | .err _ => junkRef

/-- Two storage states agreeing on every component except the fresh-uuid
counter (`construct` on raw values only draws fresh uuids). -/
def sameExceptUuid (s s1 : St) : Prop :=
  s1.cacheAtoms = s.cacheAtoms ∧ s1.persAtoms = s.persAtoms ∧
  s1.cacheShapes = s.cacheShapes ∧ s1.persShapes = s.persShapes ∧
  s1.ops = s.ops ∧ s1.callCache = s.callCache ∧ s1.callPersistent = s.callPersistent ∧
  s1.inContext = s.inContext ∧ s1.execCount = s.execCount

/-- The declared input annotations of the side-effect scenario: one list
slot. -/
def exMutTps : List (String × Ty) := [("xs", .listT .atomT)]

/-- The raw storage inputs of the side-effect scenario. -/
def exMutInps : List (String × Inp) := [("xs", .rawv (.listV [.atomV 1]))]

/-- Input construction of the side-effect scenario. -/
def exMutCI : Res (List (String × Ref) × List CallRec × St) :=
  constructInputs 8 emptySt exMutTps exMutInps

/-- The wrapped inputs of the side-effect scenario. -/
def exMutWins : List (String × Ref) :=
  match exMutCI with
  | .ok (w, _, _) => w
  | .err _ => []

/-- The input-construction calls of the side-effect scenario. -/
def exMutICalls : List CallRec :=
  match exMutCI with
  | .ok (_, cs, _) => cs
  | .err _ => []

/-- The state after input construction in the side-effect scenario. -/
def exMutS1 : St :=
  match exMutCI with
  | .ok (_, _, s) => s
  | .err _ => emptySt

/-- Unwrapping of the side-effect scenario's inputs. -/
def exMutRawsR : Res (List (String × Val)) :=
  mapR (fun p => do
    let v ← storageUnwrap 8 exMutS1 p.2
    Res.ok (p.1, v)) exMutWins

/-- The unwrapped raw input values of the side-effect scenario. -/
def exMutRaws : List (String × Val) :=
  match exMutRawsR with
  | .ok r => r
  | .err _ => []

/-- The returned values of the mutating op's user function. -/
def exMutRets : List Val := (exMutOp.fn (exMutRaws.map (fun p => p.2))).1

/-- The post-call (mutated) argument values of the mutating op. -/
def exMutPost : List Val := (exMutOp.fn (exMutRaws.map (fun p => p.2))).2

/-- The state after the mutating op's user function ran. -/
def exMutS2 : St := { exMutS1 with execCount := exMutS1.execCount + 1 }

/-- Re-fingerprinting of the mutated inputs. -/
def exMutRF : Res (List (String × Digest) × St) :=
  refingerprint 8 exMutS2 exMutTps ((exMutRaws.map (fun p => p.1)).zip exMutPost)

/-- The post-call input cids of the side-effect scenario. -/
def exMutCidsAfter : List (String × Digest) :=
  match exMutRF with
  | .ok (c, _) => c
  | .err _ => []

/-- The state after re-fingerprinting in the side-effect scenario. -/
def exMutS3 : St :=
  match exMutRF with
  | .ok (_, s) => s
  | .err _ => emptySt

/-- The parsed returns of the mutating op. -/
def exMutOutsDict : List (String × Ty × Val) :=
  match parseReturns exMutOp.outputNames exMutOp.outTys exMutRets with
  | .ok o => o
  | .err _ => []

/-! ### Helper lemmas -/

theorem Res.bind_ok {α β : Type} {r : Res α} {f : α → Res β} {b : β}
    (h : Res.bind r f = .ok b) : ∃ a, r = .ok a ∧ f a = .ok b := by
  cases r with
  | ok a => exact ⟨a, rfl, h⟩
  | err e => simp [Res.bind] at h

theorem bind_eq_rbind {α β : Type} (r : Res α) (f : α → Res β) :
    r >>= f = Res.bind r f := rfl

theorem lookupA_setA_self {α β : Type} [DecidableEq α] (k : α) (v : β) (l : List (α × β)) :
    lookupA k (setA k v l) = some v := by
  simp [setA, lookupA]

theorem lookupA_setA_ne {α β : Type} [DecidableEq α] {k k2 : α} (v : β) (l : List (α × β))
    (h : k2 ≠ k) : lookupA k2 (setA k v l) = lookupA k2 l := by
  simp [setA, lookupA, h]

theorem lookupA_dropA_ne {α β : Type} [DecidableEq α] {k k2 : α} (l : List (α × β))
    (h : k2 ≠ k) : lookupA k2 (dropA k l) = lookupA k2 l := by
  induction l with
  | nil => rfl
  | cons p rest ih =>
      obtain ⟨a, b⟩ := p
      by_cases hp : a = k
      · subst hp
        have hk2 : k2 ≠ a := h
        simp [dropA, lookupA, hk2, ih]
      · by_cases hk2 : k2 = a
        · subst hk2
          simp [dropA, lookupA, hp]
        · simp [dropA, lookupA, hp, hk2, ih]

theorem lookupA_mem {α β : Type} [DecidableEq α] {k : α} {v : β} {l : List (α × β)}
    (h : lookupA k l = some v) : (k, v) ∈ l := by
  induction l with
  | nil => simp [lookupA] at h
  | cons p rest ih =>
      by_cases hk : k = p.1
      · subst hk
        simp [lookupA] at h
        subst h
        exact List.mem_cons_self _ _
      · simp [lookupA, hk] at h
        exact List.mem_cons_of_mem _ (ih h)

theorem mapR_length {α β : Type} {f : α → Res β} : ∀ {l : List α} {l2 : List β},
    mapR f l = .ok l2 → l2.length = l.length := by
  intro l
  induction l with
  | nil => intro l2 h; simp [mapR] at h; simp [← h]
  | cons a rest ih =>
      intro l2 h
      simp only [mapR, bind_eq_rbind] at h
      obtain ⟨b, hb, h2⟩ := Res.bind_ok h
      obtain ⟨bs, hbs, h3⟩ := Res.bind_ok h2
      cases h3
      simpa using ih hbs

theorem mapR_congr_ok {α β : Type} {f : α → Res β} {g : α → β} : ∀ {l : List α},
    (∀ a ∈ l, f a = .ok (g a)) → mapR f l = .ok (l.map g) := by
  intro l
  induction l with
  | nil => intro _; simp [mapR]
  | cons a rest ih =>
      intro h
      have ha := h a (List.mem_cons_self _ _)
      have hrest := ih (fun a2 ha2 => h a2 (List.mem_cons_of_mem _ ha2))
      simp [mapR, bind_eq_rbind, ha, hrest, Res.bind]

/-! ### C5 and C6: the write-through cache -/

theorem commitLoop_ok {α : Type} (cache : List (String × α)) :
    ∀ (ks : List String) (p : List (String × α)),
    (∀ k ∈ ks, (lookupA k cache).isSome = true) →
    ∃ p2, commitLoop cache p ks = .ok p2 ∧
      (∀ k, k ∈ ks → lookupA k p2 = lookupA k cache) ∧
      (∀ k, ¬ k ∈ ks → lookupA k p2 = lookupA k p) := by
  intro ks
  induction ks with
  | nil =>
      intro p _
      exact ⟨p, rfl, by simp, by intro k _; rfl⟩
  | cons k0 rest ih =>
      intro p hks
      have hk0 : (lookupA k0 cache).isSome = true := hks k0 (List.mem_cons_self _ _)
      obtain ⟨v0, hv0⟩ : ∃ v, lookupA k0 cache = some v := by
        cases hl : lookupA k0 cache with
        | none => rw [hl] at hk0; simp at hk0
        | some v => exact ⟨v, rfl⟩
      obtain ⟨p2, hloop, hin, hout⟩ :=
        ih (setA k0 v0 p) (fun k hk => hks k (List.mem_cons_of_mem _ hk))
      refine ⟨p2, ?_, ?_, ?_⟩
      · simpa [commitLoop, hv0] using hloop
      · intro k hk
        rcases List.mem_cons.mp hk with hk | hk
        · subst hk
          by_cases hmem : k ∈ rest
          · exact hin k hmem
          · rw [hout k hmem, lookupA_setA_self, hv0]
        · exact hin k hk
      · intro k hk
        have hne : k ≠ k0 := fun q => hk (by rw [q]; exact List.mem_cons_self _ _)
        have hrest : ¬ k ∈ rest := fun q => hk (List.mem_cons_of_mem _ q)
        rw [hout k hrest, lookupA_setA_ne _ _ hne]

/-- C5: for every write-through cache state satisfying the dirty-set
invariant, `commit` succeeds, writes the cached value of every dirty key to
the persistent table, leaves every key outside the dirty set untouched in
the persistent table, and empties the dirty set (the cache itself is
unchanged). -/
theorem C5_commit_flushes_dirty {α : Type} (d : CachedDict α) (hinv : dirtySubCache d) :
    ∃ d2, d.commit = .ok d2 ∧
      d2.dirtyKeys = [] ∧
      d2.cache = d.cache ∧
      (∀ k, k ∈ d.dirtyKeys → lookupA k d2.persistent = lookupA k d.cache) ∧
      (∀ k, ¬ k ∈ d.dirtyKeys → lookupA k d2.persistent = lookupA k d.persistent) := by
  obtain ⟨p2, hloop, hin, hout⟩ := commitLoop_ok d.cache d.dirtyKeys d.persistent hinv
  refine ⟨{ d with persistent := p2, dirtyKeys := [] }, ?_, rfl, rfl, hin, hout⟩
  simp [CachedDict.commit, bind_eq_rbind, hloop, Res.bind]

/-- C5 witness. -/
theorem C5_commit_flushes_dirty_witness :
    ∃ d2, CachedDict.commit { persistent := [("a", 1), ("c", 7)], cache := [("a", 2), ("b", 3)],
                              dirtyKeys := ["a", "b"] } = .ok d2 ∧
      d2.dirtyKeys = [] ∧
      d2.cache = [("a", 2), ("b", 3)] ∧
      (∀ k, k ∈ ["a", "b"] → lookupA k d2.persistent = lookupA k [("a", 2), ("b", 3)]) ∧
      (∀ k, ¬ k ∈ ["a", "b"] → lookupA k d2.persistent = lookupA k [("a", (1 : Nat)), ("c", 7)]) :=
  C5_commit_flushes_dirty
    { persistent := [("a", 1), ("c", 7)], cache := [("a", 2), ("b", 3)], dirtyKeys := ["a", "b"] }
    (by intro k hk; fin_cases hk <;> decide)

theorem lookupA_isSome_setA {α β : Type} [DecidableEq α] {k2 : α} (k : α) (v : β)
    {l : List (α × β)} (h : (lookupA k2 l).isSome = true) :
    (lookupA k2 (setA k v l)).isSome = true := by
  by_cases hk : k2 = k
  · subst hk; rw [lookupA_setA_self]; rfl
  · rw [lookupA_setA_ne _ _ hk]; exact h

/-- C6: the invariant `dirty_keys ⊆ cache` holds for a freshly constructed
write-through cache and is preserved by every operation on it: `get` (which
may memoize a read), `set`, `drop`, `exists` (a pure query, hence
trivially), `commit`, and `clear`. -/
theorem C6_dirty_subset_cache {α : Type} :
    (∀ p : List (String × α), dirtySubCache (CachedDict.init p)) ∧
    (∀ (d : CachedDict α) (k : String) (r : α × CachedDict α),
       dirtySubCache d → d.get k = .ok r → dirtySubCache r.2) ∧
    (∀ (d : CachedDict α) (k : String) (v : α),
       dirtySubCache d → dirtySubCache (d.set k v)) ∧
    (∀ (d : CachedDict α) (k : String),
       dirtySubCache d → dirtySubCache (d.drop k)) ∧
    (∀ (d d2 : CachedDict α),
       dirtySubCache d → d.commit = .ok d2 → dirtySubCache d2) ∧
    (∀ d : CachedDict α, dirtySubCache d → dirtySubCache d.clear) := by
  refine ⟨?_, ?_, ?_, ?_, ?_, ?_⟩
  · intro p k hk
    simp [CachedDict.init] at hk
  · intro d k r hinv hget k2 hk2
    unfold CachedDict.get at hget
    cases hc : lookupA k d.cache with
    | some v =>
        rw [hc] at hget
        cases hget
        exact hinv k2 hk2
    | none =>
        rw [hc] at hget
        cases hp : lookupA k d.persistent with
        | some v =>
            rw [hp] at hget
            cases hget
            exact lookupA_isSome_setA k v (hinv k2 hk2)
        | none => rw [hp] at hget; cases hget
  · intro d k v hinv k2 hk2
    unfold CachedDict.set at hk2 ⊢
    simp only at hk2 ⊢
    by_cases hk : k2 = k
    · subst hk; rw [lookupA_setA_self]; rfl
    · rw [lookupA_setA_ne _ _ hk]
      apply hinv
      by_cases hd : d.dirtyKeys.contains k = true
      · rwa [if_pos hd] at hk2
      · rw [if_neg hd] at hk2
        rcases List.mem_cons.mp hk2 with hk2 | hk2
        · exact absurd hk2 hk
        · exact hk2
  · intro d k hinv k2 hk2
    unfold CachedDict.drop at hk2 ⊢
    simp only [List.mem_filter] at hk2
    obtain ⟨hmem, hne⟩ := hk2
    have hne2 : k2 ≠ k := by simpa using hne
    simp only
    rw [lookupA_dropA_ne _ hne2]
    exact hinv k2 hmem
  · intro d d2 hinv hcommit k2 hk2
    unfold CachedDict.commit at hcommit
    simp only [bind_eq_rbind] at hcommit
    obtain ⟨p2, _, h2⟩ := Res.bind_ok hcommit
    cases h2
    simp at hk2
  · intro d hinv k2 hk2
    simp [CachedDict.clear] at hk2

/-- C6 witness. -/
theorem C6_dirty_subset_cache_witness :
    dirtySubCache (CachedDict.init [("a", (1 : Nat))]) ∧
    dirtySubCache ((CachedDict.init [("a", (1 : Nat))]).set "b" 2) ∧
    dirtySubCache (((CachedDict.init [("a", (1 : Nat))]).set "b" 2).drop "b") := by
  have h0 := (C6_dirty_subset_cache (α := Nat)).1 [("a", 1)]
  have h1 := (C6_dirty_subset_cache (α := Nat)).2.2.1 (CachedDict.init [("a", 1)]) "b" 2 h0
  have h2 := (C6_dirty_subset_cache (α := Nat)).2.2.2.1
    ((CachedDict.init [("a", 1)]).set "b" 2) "b" h1
  exact ⟨h0, h1, h2⟩

/-! ### C9: drop_calls on missing hids -/

theorem filterHidCons (h : Digest) (rest : List Digest) (l : List CallData) :
    (l.filter (fun cd => decide (cd.hid ≠ h))).filter (fun cd => decide (¬ cd.hid ∈ rest)) =
    l.filter (fun cd => decide (¬ cd.hid ∈ h :: rest)) := by
  induction l with
  | nil => rfl
  | cons cd l ih =>
      simp only [List.filter_cons]
      by_cases h1 : cd.hid = h
      · rw [show (decide (cd.hid ≠ h)) = false by simp [h1]]
        rw [show (decide (¬ cd.hid ∈ h :: rest)) = false by simp [List.mem_cons, h1]]
        simp only [Bool.false_eq_true, if_false]
        exact ih
      · rw [show (decide (cd.hid ≠ h)) = true by simp [h1]]
        simp only [if_true]
        rw [List.filter_cons]
        by_cases h2 : cd.hid ∈ rest
        · rw [show (decide (¬ cd.hid ∈ rest)) = false by simp [h2]]
          rw [show (decide (¬ cd.hid ∈ h :: rest)) = false by simp [List.mem_cons, h2]]
          simp only [Bool.false_eq_true, if_false]
          exact ih
        · rw [show (decide (¬ cd.hid ∈ rest)) = true by simp [h2]]
          rw [show (decide (¬ cd.hid ∈ h :: rest)) = true by simp [List.mem_cons, h1, h2]]
          simp only [if_true]
          rw [ih]

theorem dropCallsCacheLoop_spec : ∀ (l : List Digest) (s : St),
    dropCallsCacheLoop s l =
      .ok { s with callCache := s.callCache.filter (fun cd => decide (¬ cd.hid ∈ l)) } := by
  intro l
  induction l with
  | nil =>
      intro s
      simp [dropCallsCacheLoop]
  | cons h rest ih =>
      intro s
      simp only [dropCallsCacheLoop]
      cases hc : callCacheData s h with
      | some cd =>
          have hcond : (callCacheData s h).isSome = true := by rw [hc]; rfl
          rw [if_pos (show (some cd).isSome = true from rfl)]
          have hdrop : callCacheDrop s h =
              .ok { s with callCache := s.callCache.filter (fun cd => decide (cd.hid ≠ h)) } := by
            unfold callCacheDrop
            rw [if_pos hcond]
          rw [hdrop]
          show dropCallsCacheLoop
            { s with callCache := s.callCache.filter (fun cd => decide (cd.hid ≠ h)) } rest = _
          rw [ih]
          have hcc : ({ s with callCache := s.callCache.filter (fun cd => decide (cd.hid ≠ h)) } : St).callCache =
              s.callCache.filter (fun cd => decide (cd.hid ≠ h)) := rfl
          simp only [hcc]
          rw [filterHidCons]
      | none =>
          rw [if_neg (show ¬ ((none : Option CallData).isSome = true) by simp)]
          show dropCallsCacheLoop s rest = _
          rw [ih]
          have hall := List.find?_eq_none.mp hc
          have heq : s.callCache.filter (fun cd => decide (¬ cd.hid ∈ h :: rest)) =
              s.callCache.filter (fun cd => decide (¬ cd.hid ∈ rest)) := by
            apply List.filter_congr
            intro cd hcd
            have hne : ¬ (cd.hid = h) := by
              have := hall cd hcd
              simpa using this
            simp [List.mem_cons, hne]
          rw [heq]

theorem dropCallsPersistentLoop_spec : ∀ (l : List Digest) (s : St),
    dropCallsPersistentLoop s l =
      { s with callPersistent := s.callPersistent.filter (fun cd => decide (¬ cd.hid ∈ l)) } := by
  intro l
  induction l with
  | nil =>
      intro s
      simp [dropCallsPersistentLoop]
  | cons h rest ih =>
      intro s
      simp only [dropCallsPersistentLoop]
      cases hc : callPersistentData s h with
      | some cd =>
          rw [if_pos (show (some cd).isSome = true from rfl)]
          show dropCallsPersistentLoop
            { s with callPersistent := s.callPersistent.filter (fun cd => decide (cd.hid ≠ h)) }
            rest = _
          rw [ih]
          have hcc : ({ s with callPersistent := s.callPersistent.filter (fun cd => decide (cd.hid ≠ h)) } : St).callPersistent =
              s.callPersistent.filter (fun cd => decide (cd.hid ≠ h)) := rfl
          simp only [hcc]
          rw [filterHidCons]
      | none =>
          rw [if_neg (show ¬ ((none : Option CallData).isSome = true) by simp)]
          rw [ih]
          have hall := List.find?_eq_none.mp hc
          have heq : s.callPersistent.filter (fun cd => decide (¬ cd.hid ∈ h :: rest)) =
              s.callPersistent.filter (fun cd => decide (¬ cd.hid ∈ rest)) := by
            apply List.filter_congr
            intro cd hcd
            have hne : ¬ (cd.hid = h) := by
              have := hall cd hcd
              simpa using this
            simp [List.mem_cons, hne]
          rw [heq]

/-- C9: `drop_calls` with `delete_dependents=False` never fails: hids that
exist in neither the call cache nor the persistent call table are silently
skipped, exactly the rows of the given hids are removed from the call cache
and the persistent call table, and every other part of the storage is
unchanged. -/
theorem C9_drop_calls_skips_missing (fuel : Nat) (s : St) (hids : List Digest) :
    ∃ s2, dropCalls fuel s hids false = .ok s2 ∧
      s2.callCache = s.callCache.filter (fun cd => decide (¬ cd.hid ∈ hids)) ∧
      s2.callPersistent = s.callPersistent.filter (fun cd => decide (¬ cd.hid ∈ hids)) ∧
      s2.cacheAtoms = s.cacheAtoms ∧ s2.persAtoms = s.persAtoms ∧
      s2.cacheShapes = s.cacheShapes ∧ s2.persShapes = s.persShapes ∧
      s2.ops = s.ops ∧ s2.inContext = s.inContext ∧ s2.uuid = s.uuid ∧
      s2.execCount = s.execCount := by
  have hcongr : ∀ tbl : List CallData,
      tbl.filter (fun cd => decide (¬ cd.hid ∈ hids.dedup)) =
      tbl.filter (fun cd => decide (¬ cd.hid ∈ hids)) := by
    intro tbl
    apply List.filter_congr
    intro cd _
    simp [List.mem_dedup]
  refine ⟨{ s with
      callCache := s.callCache.filter (fun cd => decide (¬ cd.hid ∈ hids)),
      callPersistent := s.callPersistent.filter (fun cd => decide (¬ cd.hid ∈ hids)) },
    ?_, rfl, rfl, rfl, rfl, rfl, rfl, rfl, rfl, rfl, rfl⟩
  show (do
      let s1 ← dropCallsCacheLoop s hids.dedup
      Res.ok (dropCallsPersistentLoop s1 hids.dedup)) = _
  simp only [bind_eq_rbind, dropCallsCacheLoop_spec, Res.bind]
  rw [dropCallsPersistentLoop_spec]
  simp only [hcongr]

/-! ### C8: provenance queries are guarded by the context flag -/

/-- C8: with a storage context open, each provenance query (`get_creators`,
`get_consumers`, `get_orphans`, `get_unreferenced_cids`) fails with the
in-context guard error (`NotAllowedInContext`); with no context open, each
runs its underlying computation: the two call queries reduce to the
unguarded reconstruction over the persistent table and the two sweeps
return their computed sets. -/
theorem C8_provenance_context_guard (fuel : Nat) (s : St) (refHids : List Digest) :
    (s.inContext = true →
       getCreators fuel s refHids = .err .notAllowedInContext ∧
       getConsumers fuel s refHids = .err .notAllowedInContext ∧
       getOrphans s = .err .notAllowedInContext ∧
       getUnreferencedCids s = .err .notAllowedInContext) ∧
    (s.inContext = false →
       getCreators fuel s refHids =
         mgetCall fuel s (creatorHids s.callPersistent refHids) true ∧
       getConsumers fuel s refHids =
         mgetCall fuel s (consumerHids s.callPersistent refHids) true ∧
       getOrphans s = .ok ((s.persShapes.map (fun p => p.1)).filter
         (fun h => ¬ refHidInCalls s.callPersistent h)) ∧
       getUnreferencedCids s = .ok ((s.persAtoms.map (fun p => p.1)).filter
         (fun c => ¬ refCidInCalls s.callPersistent c &&
                   ¬ (s.persShapes.map (fun p => p.2.cid)).any (fun c2 => decide (c2 = c))))) := by
  constructor
  · intro hctx
    refine ⟨?_, ?_, ?_, ?_⟩ <;>
      simp [getCreators, getConsumers, getOrphans, getUnreferencedCids, hctx]
  · intro hctx
    refine ⟨?_, ?_, ?_, ?_⟩ <;>
      simp [getCreators, getConsumers, getOrphans, getUnreferencedCids, hctx]

/-- C8 witness: the guard fires on an in-context state and stays silent on
the fresh storage. -/
theorem C8_provenance_context_guard_witness :
    (getCreators 1 { emptySt with inContext := true } [] = .err .notAllowedInContext ∧
     getConsumers 1 { emptySt with inContext := true } [] = .err .notAllowedInContext ∧
     getOrphans { emptySt with inContext := true } = .err .notAllowedInContext ∧
     getUnreferencedCids { emptySt with inContext := true } = .err .notAllowedInContext) ∧
    (getOrphans emptySt = .ok [] ∧ getCreators 1 emptySt [] = .ok []) := by
  constructor
  · exact (C8_provenance_context_guard 1 { emptySt with inContext := true } []).1 rfl
  · have h2 := (C8_provenance_context_guard 1 emptySt []).2 rfl
    refine ⟨?_, ?_⟩
    · rw [h2.2.2.1]
      decide
    · rw [h2.1]
      decide

/-! ### C10: call returns a bare ref for a single output -/

theorem getOrderedOutputs_length {op : UOp} {outputs : List (String × Ref)} {l : List Ref}
    (h : getOrderedOutputs op outputs = .ok l) : l.length = op.outputNames.length := by
  exact mapR_length h

/-- C10: whenever `Storage.call` succeeds, an op declaring exactly one
output yields a single bare ref, and an op declaring more than one output
yields the ordered tuple of refs, one per declared output. -/
theorem C10_call_output_arity (fuel : Nat) (s : St) (op : UOp) (args : List Inp)
    (saveFlag : Bool) (res : CallResult) (s2 : St)
    (h : storageCall fuel s op args saveFlag = .ok (res, s2)) :
    (op.outputNames.length = 1 → ∃ r, res = .single r) ∧
    (1 < op.outputNames.length →
       ∃ rs, rs.length = op.outputNames.length ∧ res = .multi rs) := by
  unfold storageCall at h
  simp only [bind_eq_rbind] at h
  obtain ⟨pa, hpa, h⟩ := Res.bind_ok h
  obtain ⟨ci, hci, h⟩ := Res.bind_ok h
  obtain ⟨ord, hord, h⟩ := Res.bind_ok h
  have hlen : ord.length = op.outputNames.length := getOrderedOutputs_length hord
  constructor
  · intro h1
    rw [h1] at hlen
    match ord, hlen with
    | [r], _ =>
        refine ⟨r, ?_⟩
        simp at h
        exact h.1.symm
  · intro hgt
    match ord, hord with
    | [], hord =>
        rw [← hlen] at hgt
        simp at hgt
    | [r], hord =>
        rw [← hlen] at hgt
        simp at hgt
    | r1 :: r2 :: rest, hord =>
        refine ⟨r1 :: r2 :: rest, hlen, ?_⟩
        simp at h
        exact h.1.symm

/-- C10 witness: the single-output op returns a bare ref; the two-output op
returns the tuple. -/
theorem C10_call_output_arity_witness :
    (∃ r, exIncCallRes = .single r) ∧
    (∃ rs, rs.length = exPairOp.outputNames.length ∧ exPairRes = .multi rs) := by
  have h1 := C10_call_output_arity 8 emptySt exIncOp [.rawv (.atomV 41)] false
    exIncCallRes exIncCallSt (by decide)
  have h2 := C10_call_output_arity 8 emptySt exPairOp [.rawv (.atomV 3)] false
    exPairRes exPairSt (by decide)
  exact ⟨h1.1 (by decide), h2.2 (by decide)⟩

/-! ### C2: save_ref / load_ref round trip on a list -/

/-- C2: evaluation of the source's load path at a concrete saved list ref
(one atom child holding 5).  `load_ref(hid, lazy=False)` returns the list
shape attached to `shape.obj` — the *detached* stored children — although
recursively loading the child hid yields the in-memory atom; so the
returned children are not the results of recursively loading each child
(the source's `return shape.attached(obj=shape.obj)` instead of the freshly
built `obj`, flagged in the spec's design notes).  The top-level cid and
hid and the storage-level unwrapped value nevertheless match the original
ref. -/
theorem C2_list_load_returns_stored_children :
    (loadRef 10 (saveRef emptySt exListRef) exListRef.hid false =
      .ok (.listR (.listId [.atomId (.atomV 5)]) (.freshId 100) true
        [.atomR (.atomId (.atomV 5)) (.freshId 101) none])) ∧
    (loadRef 10 (saveRef emptySt exListRef) (.freshId 101) false =
      .ok (.atomR (.atomId (.atomV 5)) (.freshId 101) (some (.atomV 5)))) ∧
    ([Ref.atomR (.atomId (.atomV 5)) (.freshId 101) none] ≠
      [Ref.atomR (.atomId (.atomV 5)) (.freshId 101) (some (.atomV 5))]) ∧
    ((loadRef 10 (saveRef emptySt exListRef) exListRef.hid false).bind
        (fun r => .ok (r.cid, r.hid)) = .ok (exListRef.cid, exListRef.hid)) ∧
    ((loadRef 10 (saveRef emptySt exListRef) exListRef.hid false).bind
        (fun r => storageUnwrap 10 (saveRef emptySt exListRef) r) =
      .ok (.listV [.atomV 5])) := by
  refine ⟨by decide, by decide, by decide, by decide, by decide⟩

/-! ### C3: unwrap after construct -/

mutual
theorem pureVal_storageUnwrap (r : Ref) : ∀ v, pureVal r = some v →
    ∀ (fuel : Nat) (s : St), storageUnwrap fuel s r = .ok v := by
  intro v hp fuel s
  match r with
  | .atomR c h o =>
      simp only [pureVal] at hp
      simp only [storageUnwrap, hp]
  | .listR c h m elts =>
      simp only [pureVal] at hp
      match hl : pureValList elts with
      | some vs =>
          rw [hl] at hp
          simp only [Option.some.injEq] at hp
          have := pureValList_storageUnwrapList elts vs hl fuel s
          simp only [storageUnwrap, bind_eq_rbind, this, Res.bind, hp]
      | none => rw [hl] at hp; cases hp
  | .dictR c h m items =>
      simp only [pureVal] at hp
      match hl : pureValItems items with
      | some vs =>
          rw [hl] at hp
          simp only [Option.some.injEq] at hp
          have := pureValItems_storageUnwrapItems items vs hl fuel s
          simp only [storageUnwrap, bind_eq_rbind, this, Res.bind, hp]
      | none => rw [hl] at hp; cases hp
termination_by structural r

theorem pureValList_storageUnwrapList (elts : List Ref) : ∀ vs, pureValList elts = some vs →
    ∀ (fuel : Nat) (s : St), storageUnwrapList fuel s elts = .ok vs := by
  intro vs hp fuel s
  match elts with
  | [] =>
      simp only [pureValList, Option.some.injEq] at hp
      simp only [storageUnwrapList, ← hp]
  | r :: rest =>
      simp only [pureValList] at hp
      match h1 : pureVal r, h2 : pureValList rest with
      | some v, some vs2 =>
          rw [h1, h2] at hp
          simp only [Option.some.injEq] at hp
          have e1 := pureVal_storageUnwrap r v h1 fuel s
          have e2 := pureValList_storageUnwrapList rest vs2 h2 fuel s
          simp only [storageUnwrapList, bind_eq_rbind, e1, e2, Res.bind, ← hp]
      | some _, none => rw [h1, h2] at hp; cases hp
      | none, _ => rw [h1] at hp; cases hp
termination_by structural elts

theorem pureValItems_storageUnwrapItems (items : List (String × Ref)) : ∀ vs,
    pureValItems items = some vs →
    ∀ (fuel : Nat) (s : St), storageUnwrapItems fuel s items = .ok vs := by
  intro vs hp fuel s
  match items with
  | [] =>
      simp only [pureValItems, Option.some.injEq] at hp
      simp only [storageUnwrapItems, ← hp]
  | (k, r) :: rest =>
      simp only [pureValItems] at hp
      match h1 : pureVal r, h2 : pureValItems rest with
      | some v, some vs2 =>
          rw [h1, h2] at hp
          simp only [Option.some.injEq] at hp
          have e1 := pureVal_storageUnwrap r v h1 fuel s
          have e2 := pureValItems_storageUnwrapItems rest vs2 h2 fuel s
          simp only [storageUnwrapItems, bind_eq_rbind, e1, e2, Res.bind, ← hp]
      | some _, none => rw [h1, h2] at hp; cases hp
      | none, _ => rw [h1] at hp; cases hp
termination_by structural items
end

theorem sameExceptUuid_refl (s : St) : sameExceptUuid s s :=
  ⟨rfl, rfl, rfl, rfl, rfl, rfl, rfl, rfl, rfl⟩

theorem sameExceptUuid_trans {s1 s2 s3 : St} (h1 : sameExceptUuid s1 s2)
    (h2 : sameExceptUuid s2 s3) : sameExceptUuid s1 s3 := by
  obtain ⟨a1, a2, a3, a4, a5, a6, a7, a8, a9⟩ := h1
  obtain ⟨b1, b2, b3, b4, b5, b6, b7, b8, b9⟩ := h2
  exact ⟨b1.trans a1, b2.trans a2, b3.trans a3, b4.trans a4, b5.trans a5,
         b6.trans a6, b7.trans a7, b8.trans a8, b9.trans a9⟩

theorem lookupCall_empty (fuel : Nat) (s : St) (opName : String)
    (inputs : List (String × Ref)) (hcc : s.callCache = []) :
    lookupCall fuel s opName inputs = .ok none := by
  unfold lookupCall callCacheData callCacheDataContent
  rw [hcc]
  rfl

theorem one_le_valDepth (v : Val) : 1 ≤ valDepth v := by
  cases v <;> simp [valDepth]

theorem one_le_valDepthList (vs : List Val) : 1 ≤ valDepthList vs := by
  cases vs with
  | nil => simp [valDepthList]
  | cons v rest => simp [valDepthList]; omega

theorem one_le_valDepthItems (items : List (String × Val)) : 1 ≤ valDepthItems items := by
  cases items with
  | nil => simp [valDepthItems]
  | cons p rest =>
      obtain ⟨k, v⟩ := p
      simp [valDepthItems]
      omega

theorem construct_raw_spec : ∀ fuel : Nat,
    (∀ (v : Val) (s : St) (tp : Ty), tyOk tp v = true → s.callCache = [] →
      valDepth v ≤ fuel →
      ∃ r calls s1, construct fuel s tp (.rawv v) = .ok (r, calls, s1) ∧
        r.cid = cidOfVal tp v ∧ pureVal r = some v ∧ sameExceptUuid s s1) ∧
    (∀ (vs : List Val) (s : St) (elt : Ty) (i : Nat), tyOkList elt vs = true →
      s.callCache = [] → valDepthList vs ≤ fuel →
      ∃ ws calls s1, constructListInputs fuel s elt vs i = .ok (ws, calls, s1) ∧
        ws.map (fun p => p.2.cid) = cidOfValList elt vs ∧
        pureValList (ws.map (fun p => p.2)) = some vs ∧ sameExceptUuid s s1) ∧
    (∀ (items : List (String × Val)) (s : St) (vt : Ty), tyOkItems vt items = true →
      s.callCache = [] → valDepthItems items ≤ fuel →
      ∃ ws calls s1, constructDictInputs fuel s vt items = .ok (ws, calls, s1) ∧
        ws.map (fun p => (p.1, p.2.cid)) = cidOfValItems vt items ∧
        pureValItems ws = some items ∧ sameExceptUuid s s1) := by
  intro fuel
  induction fuel with
  | zero =>
      refine ⟨?_, ?_, ?_⟩
      · intro v _ _ _ _ hd
        exact absurd (le_trans (one_le_valDepth v) hd) (by simp)
      · intro vs _ _ _ _ _ hd
        exact absurd (le_trans (one_le_valDepthList vs) hd) (by simp)
      · intro items _ _ _ _ hd
        exact absurd (le_trans (one_le_valDepthItems items) hd) (by simp)
  | succ fuel ih =>
      obtain ⟨ih1, ih2, ih3⟩ := ih
      refine ⟨?_, ?_, ?_⟩
      · -- construct on a raw value
        intro v s tp hty hcc hd
        cases v with
        | atomV n =>
            have htp : tp = .atomT := by
              simpa [tyOk] using hty
            subst htp
            exact ⟨_, _, _, rfl, rfl, rfl,
              ⟨rfl, rfl, rfl, rfl, rfl, rfl, rfl, rfl, rfl⟩⟩
        | atomS t =>
            have htp : tp = .atomT := by
              simpa [tyOk] using hty
            subst htp
            exact ⟨_, _, _, rfl, rfl, rfl,
              ⟨rfl, rfl, rfl, rfl, rfl, rfl, rfl, rfl, rfl⟩⟩
        | listV elts =>
            cases tp with
            | atomT => simp [tyOk] at hty
            | dictT kt vt => simp [tyOk] at hty
            | listT elt =>
                have htyl : tyOkList elt elts = true := by simpa [tyOk] using hty
                have hdl : valDepthList elts ≤ fuel := by
                  simp only [valDepth] at hd
                  omega
                obtain ⟨ws, calls, s1, hrun, hcid, hpure, hsame⟩ :=
                  ih2 elts s elt 0 htyl hcc hdl
                have hcc1 : s1.callCache = [] := by
                  rw [hsame.2.2.2.2.2.1, hcc]
                have hmk : makeListCall fuel s1 ws calls =
                    .ok (.listR (.listId ((ws.map (fun p => p.2)).map Ref.cid))
                          (.outHid (callHidOf "__make_list__" ws none) "output_0") true
                          (ws.map (fun p => p.2)),
                        calls ++ [{ opName := "__make_list__",
                                    cid := callCidOf "__make_list__" ws none,
                                    hid := callHidOf "__make_list__" ws none,
                                    inputs := ws,
                                    outputs := [("output_0",
                                      .listR (.listId ((ws.map (fun p => p.2)).map Ref.cid))
                                        (.outHid (callHidOf "__make_list__" ws none) "output_0")
                                        true (ws.map (fun p => p.2)))], sv := none }], s1) := by
                  unfold makeListCall
                  rw [lookupCall_empty fuel s1 "__make_list__" ws hcc1]
                  rfl
                refine ⟨.listR (.listId ((ws.map (fun p => p.2)).map Ref.cid))
                    (.outHid (callHidOf "__make_list__" ws none) "output_0") true
                    (ws.map (fun p => p.2)),
                  calls ++ [{ opName := "__make_list__",
                              cid := callCidOf "__make_list__" ws none,
                              hid := callHidOf "__make_list__" ws none,
                              inputs := ws,
                              outputs := [("output_0",
                                .listR (.listId ((ws.map (fun p => p.2)).map Ref.cid))
                                  (.outHid (callHidOf "__make_list__" ws none) "output_0")
                                  true (ws.map (fun p => p.2)))], sv := none }],
                  s1, ?_, ?_, ?_, hsame⟩
                · show Res.bind (constructListInputs fuel s elt elts 0)
                    (fun t =>
                      match t with
                      | (ws, calls, s1) => makeListCall fuel s1 ws calls) = _
                  rw [hrun]
                  show makeListCall fuel s1 ws calls = _
                  exact hmk
                · show Digest.listId ((ws.map (fun p => p.2)).map Ref.cid) =
                    cidOfVal (.listT elt) (.listV elts)
                  simp only [List.map_map]
                  simp only [cidOfVal]
                  rw [show ((fun p => Ref.cid p.2) : String × Ref → Digest) =
                    (Ref.cid ∘ fun p => p.2) from rfl] at hcid
                  rw [hcid]
                · show pureVal (.listR _ _ _ (ws.map (fun p => p.2))) = some (.listV elts)
                  simp only [pureVal, hpure]
        | dictV items =>
            cases tp with
            | atomT => simp [tyOk] at hty
            | listT elt => simp [tyOk] at hty
            | dictT kt vt =>
                have htyl : tyOkItems vt items = true := by simpa [tyOk] using hty
                have hdl : valDepthItems items ≤ fuel := by
                  simp only [valDepth] at hd
                  omega
                obtain ⟨ws, calls, s1, hrun, hcid, hpure, hsame⟩ :=
                  ih3 items s vt htyl hcc hdl
                have hcc1 : s1.callCache = [] := by
                  rw [hsame.2.2.2.2.2.1, hcc]
                have hmk : makeDictCall fuel s1 ws calls =
                    .ok (.dictR (.dictId (sortByName (ws.map (fun p => (p.1, p.2.cid)))))
                          (.outHid (callHidOf "__make_dict__" ws none) "output_0") true ws,
                        calls ++ [{ opName := "__make_dict__",
                                    cid := callCidOf "__make_dict__" ws none,
                                    hid := callHidOf "__make_dict__" ws none,
                                    inputs := ws,
                                    outputs := [("output_0",
                                      .dictR (.dictId (sortByName (ws.map (fun p => (p.1, p.2.cid)))))
                                        (.outHid (callHidOf "__make_dict__" ws none) "output_0")
                                        true ws)], sv := none }], s1) := by
                  unfold makeDictCall
                  rw [lookupCall_empty fuel s1 "__make_dict__" ws hcc1]
                  rfl
                refine ⟨.dictR (.dictId (sortByName (ws.map (fun p => (p.1, p.2.cid)))))
                    (.outHid (callHidOf "__make_dict__" ws none) "output_0") true ws,
                  calls ++ [{ opName := "__make_dict__",
                              cid := callCidOf "__make_dict__" ws none,
                              hid := callHidOf "__make_dict__" ws none,
                              inputs := ws,
                              outputs := [("output_0",
                                .dictR (.dictId (sortByName (ws.map (fun p => (p.1, p.2.cid)))))
                                  (.outHid (callHidOf "__make_dict__" ws none) "output_0")
                                  true ws)], sv := none }],
                  s1, ?_, ?_, ?_, hsame⟩
                · show Res.bind (constructDictInputs fuel s vt items)
                    (fun t =>
                      match t with
                      | (ws, calls, s1) => makeDictCall fuel s1 ws calls) = _
                  rw [hrun]
                  show makeDictCall fuel s1 ws calls = _
                  exact hmk
                · show Digest.dictId (sortByName (ws.map (fun p => (p.1, p.2.cid)))) =
                    cidOfVal (.dictT kt vt) (.dictV items)
                  simp only [cidOfVal]
                  rw [hcid]
                · show pureVal (.dictR _ _ _ ws) = some (.dictV items)
                  simp only [pureVal, hpure]
      · -- constructListInputs
        intro vs s elt i htyl hcc hd
        cases vs with
        | nil =>
            exact ⟨[], [], s, rfl, rfl, rfl, sameExceptUuid_refl s⟩
        | cons v rest =>
            have hty1 : tyOk elt v = true ∧ tyOkList elt rest = true := by
              simpa [tyOkList, Bool.and_eq_true] using htyl
            have hd1 : valDepth v ≤ fuel ∧ valDepthList rest ≤ fuel := by
              simp only [valDepthList] at hd
              omega
            obtain ⟨r, cs, s1, hrun1, hcid1, hpure1, hsame1⟩ :=
              ih1 v s elt hty1.1 hcc hd1.1
            have hcc1 : s1.callCache = [] := by rw [hsame1.2.2.2.2.2.1, hcc]
            obtain ⟨ws, cs2, s2, hrun2, hcid2, hpure2, hsame2⟩ :=
              ih2 rest s1 elt (i + 1) hty1.2 hcc1 hd1.2
            refine ⟨(listSlot i, r) :: ws, cs ++ cs2, s2, ?_, ?_, ?_,
              sameExceptUuid_trans hsame1 hsame2⟩
            · show Res.bind (construct fuel s elt (.rawv v)) _ = _
              rw [hrun1]
              show Res.bind (constructListInputs fuel s1 elt rest (i + 1)) _ = _
              rw [hrun2]
              rfl
            · simp only [List.map_cons, hcid1, hcid2, cidOfValList]
            · simp only [List.map_cons, pureValList, hpure1, hpure2]
      · -- constructDictInputs
        intro items s vt htyl hcc hd
        cases items with
        | nil =>
            exact ⟨[], [], s, rfl, rfl, rfl, sameExceptUuid_refl s⟩
        | cons p rest =>
            obtain ⟨k, v⟩ := p
            have hty1 : tyOk vt v = true ∧ tyOkItems vt rest = true := by
              simpa [tyOkItems, Bool.and_eq_true] using htyl
            have hd1 : valDepth v ≤ fuel ∧ valDepthItems rest ≤ fuel := by
              simp only [valDepthItems] at hd
              omega
            obtain ⟨r, cs, s1, hrun1, hcid1, hpure1, hsame1⟩ :=
              ih1 v s vt hty1.1 hcc hd1.1
            have hcc1 : s1.callCache = [] := by rw [hsame1.2.2.2.2.2.1, hcc]
            obtain ⟨ws, cs2, s2, hrun2, hcid2, hpure2, hsame2⟩ :=
              ih3 rest s1 vt hty1.2 hcc1 hd1.2
            refine ⟨(k, r) :: ws, cs ++ cs2, s2, ?_, ?_, ?_,
              sameExceptUuid_trans hsame1 hsame2⟩
            · show Res.bind (construct fuel s vt (.rawv v)) _ = _
              rw [hrun1]
              show Res.bind (constructDictInputs fuel s1 vt rest) _ = _
              rw [hrun2]
              rfl
            · simp only [List.map_cons, hcid1, hcid2, cidOfValItems]
            · simp only [pureValItems, hpure1, hpure2]

/-- C3: for every plain value and every type consistent with it, wrapping
through `construct` succeeds (against an empty call cache and enough fuel)
and unwrapping the returned ref through the storage yields the original
value, in any storage state and at any fuel: the constructed ref is fully
in memory. -/
theorem C3_unwrap_construct (v : Val) (tp : Ty) (s : St) (fuel : Nat)
    (hty : tyOk tp v = true) (hcc : s.callCache = []) (hfuel : valDepth v ≤ fuel) :
    ∃ r calls s1, construct fuel s tp (.rawv v) = .ok (r, calls, s1) ∧
      ∀ (fuel2 : Nat) (s2 : St), storageUnwrap fuel2 s2 r = .ok v := by
  obtain ⟨r, calls, s1, hrun, _, hpure, _⟩ := (construct_raw_spec fuel).1 v s tp hty hcc hfuel
  exact ⟨r, calls, s1, hrun, fun fuel2 s2 => pureVal_storageUnwrap r v hpure fuel2 s2⟩

/-- C3 witness: a nested list-of-dicts value round-trips through
`construct` and `unwrap` on the fresh storage. -/
theorem C3_unwrap_construct_witness :
    tyOk (.listT (.dictT .atomT .atomT)) (.listV [.dictV [("a", .atomV 2)], .dictV []]) = true ∧
    ∃ r calls s1,
      construct 20 emptySt (.listT (.dictT .atomT .atomT))
        (.rawv (.listV [.dictV [("a", .atomV 2)], .dictV []])) = .ok (r, calls, s1) ∧
      ∀ (fuel2 : Nat) (s2 : St), storageUnwrap fuel2 s2 r = .ok
        (.listV [.dictV [("a", .atomV 2)], .dictV []]) :=
  ⟨by decide,
   C3_unwrap_construct (.listV [.dictV [("a", .atomV 2)], .dictV []])
     (.listT (.dictT .atomT .atomT)) emptySt 20 (by decide) rfl (by decide)⟩

/-! ### C1 and C4: call reuse -/

theorem mapR_forall2 {α β : Type} {f : α → Res β} : ∀ {l : List α} {l2 : List β},
    mapR f l = .ok l2 → List.Forall₂ (fun a b => f a = .ok b) l l2 := by
  intro l
  induction l with
  | nil =>
      intro l2 h
      simp [mapR] at h
      subst h
      exact List.Forall₂.nil
  | cons a rest ih =>
      intro l2 h
      simp only [mapR, bind_eq_rbind] at h
      obtain ⟨b, hb, h2⟩ := Res.bind_ok h
      obtain ⟨bs, hbs, h3⟩ := Res.bind_ok h2
      cases h3
      exact List.Forall₂.cons hb (ih hbs)

theorem loadRef_ok_top {fuel : Nat} {s : St} {h : Digest} {lazy : Bool} {r : Ref}
    (hl : loadRef fuel s h lazy = .ok r) :
    ∃ sh, shapesGet s h = .ok sh ∧ r.cid = sh.cid ∧ r.hid = sh.hid := by
  cases fuel with
  | zero => cases hl
  | succ fuel =>
      simp only [loadRef, bind_eq_rbind] at hl
      obtain ⟨sh, hsh, h2⟩ := Res.bind_ok hl
      refine ⟨sh, hsh, ?_⟩
      cases sh with
      | atomR c hh o =>
          by_cases hlz : lazy
          · simp only [hlz, if_true] at h2
            cases h2
            exact ⟨rfl, rfl⟩
          · simp only [hlz, if_false] at h2
            obtain ⟨v, _, h3⟩ := Res.bind_ok h2
            cases h3
            exact ⟨rfl, rfl⟩
      | listR c hh m elts =>
          obtain ⟨_, _, h3⟩ := Res.bind_ok h2
          cases h3
          exact ⟨rfl, rfl⟩
      | dictR c hh m items =>
          obtain ⟨_, _, h3⟩ := Res.bind_ok h2
          cases h3
          exact ⟨rfl, rfl⟩

theorem getCallFromData_ok {fuel : Nat} {s : St} {cd : CallData} {lazy : Bool} {c : CallRec}
    (h : getCallFromData fuel s cd lazy = .ok c) :
    c.opName = cd.opName ∧ c.cid = cd.cid ∧ c.hid = cd.hid ∧ c.sv = none ∧
    List.Forall₂ (fun p q => (loadRef fuel s p.2 lazy).bind (fun r => Res.ok (p.1, r)) = .ok q)
      cd.inputHids c.inputs ∧
    List.Forall₂ (fun p q => (loadRef fuel s p.2 lazy).bind (fun r => Res.ok (p.1, r)) = .ok q)
      cd.outputHids c.outputs := by
  unfold getCallFromData at h
  by_cases hc : s.ops.contains cd.opName = true
  · rw [if_pos hc] at h
    simp only [bind_eq_rbind] at h
    obtain ⟨ins, hins, h2⟩ := Res.bind_ok h
    obtain ⟨outs, houts, h3⟩ := Res.bind_ok h2
    cases h3
    exact ⟨rfl, rfl, rfl, rfl, mapR_forall2 hins, mapR_forall2 houts⟩
  · rw [if_neg hc] at h
    cases h

theorem lookupCall_some_hid {fuel : Nat} {s : St} {opName : String}
    {ins : List (String × Ref)} {c : CallRec}
    (h : lookupCall fuel s opName ins = .ok (some c)) :
    c.hid = callHidOf opName ins none := by
  simp only [lookupCall] at h
  cases hcd : callCacheData s (callHidOf opName ins none) with
  | some cd =>
      rw [hcd] at h
      simp only [bind_eq_rbind] at h
      obtain ⟨c0, hc0, h2⟩ := Res.bind_ok h
      cases h2
      have hfind := List.find?_some hcd
      have : cd.hid = callHidOf opName ins none := by simpa using hfind
      rw [(getCallFromData_ok hc0).2.2.1, this]
  | none =>
      rw [hcd] at h
      cases hcc : callCacheDataContent s (callCidOf opName ins none) with
      | some cd =>
          rw [hcc] at h
          simp only [bind_eq_rbind] at h
          obtain ⟨c0, hc0, h2⟩ := Res.bind_ok h
          cases h2
          rfl
      | none =>
          rw [hcc] at h
          cases h


theorem construct_refv {fuel : Nat} {s : St} {tp : Ty} {r : Ref} (hf : 1 ≤ fuel) :
    construct fuel s tp (.refv r) = .ok (r, [], s) := by
  cases fuel with
  | zero => cases hf
  | succ fuel => rfl

theorem constructInputs_refs_inv {fuel : Nat} {tps : List (String × Ty)} :
    ∀ {l : List (String × Ref)} {s : St} {ws : List (String × Ref)} {cs : List CallRec} {s2 : St},
    constructInputs fuel s tps (l.map (fun p => (p.1, Inp.refv p.2))) = .ok (ws, cs, s2) →
    ws = l ∧ cs = [] ∧ s2 = s ∧ (∀ k ∈ l.map Prod.fst, (lookupA k tps).isSome = true) := by
  intro l
  induction l with
  | nil =>
      intro s ws cs s2 h
      simp only [List.map_nil, constructInputs, Res.ok.injEq, Prod.mk.injEq] at h
      obtain ⟨h1, h2, h3⟩ := h
      exact ⟨h1.symm, h2.symm, h3.symm, by simp⟩
  | cons p rest ih =>
      intro s ws cs s2 h
      obtain ⟨k, r⟩ := p
      simp only [List.map_cons, constructInputs] at h
      cases hlk : lookupA k tps with
      | none =>
          simp only [hlk] at h
          cases h
      | some tpk =>
          simp only [hlk] at h
          cases fuel with
          | zero =>
              simp only [construct, bind_eq_rbind, Res.bind] at h
              exact Res.noConfusion h
          | succ fuel =>
              rw [bind_eq_rbind, construct_refv (Nat.succ_le_succ (Nat.zero_le fuel))] at h
              simp only [Res.bind] at h
              simp only [bind_eq_rbind] at h
              obtain ⟨t2, ht2, h3⟩ := Res.bind_ok h
              obtain ⟨ws2, cs2, s3⟩ := t2
              obtain ⟨hws2, hcs2, hs3, hlks⟩ := ih ht2
              simp only [Res.ok.injEq, Prod.mk.injEq] at h3
              obtain ⟨h4, h5, h6⟩ := h3
              subst hws2 hcs2 hs3
              refine ⟨h4.symm, by rw [← h5]; rfl, h6.symm, ?_⟩
              intro k2 hk2
              rcases List.mem_cons.mp hk2 with hk2 | hk2
              · subst hk2
                rw [hlk]
                rfl
              · exact hlks k2 hk2

theorem constructInputs_refs_ok {fuel : Nat} {tps : List (String × Ty)} (hf : 1 ≤ fuel) :
    ∀ (l : List (String × Ref)) (s : St),
    (∀ k ∈ l.map Prod.fst, (lookupA k tps).isSome = true) →
    constructInputs fuel s tps (l.map (fun p => (p.1, Inp.refv p.2))) = .ok (l, [], s) := by
  intro l
  induction l with
  | nil =>
      intro s _
      simp [constructInputs]
  | cons p rest ih =>
      intro s hlk
      obtain ⟨k, r⟩ := p
      have hk : (lookupA k tps).isSome = true := hlk k (by simp)
      obtain ⟨tpk, htpk⟩ : ∃ tpk, lookupA k tps = some tpk := by
        cases hl : lookupA k tps with
        | none => rw [hl] at hk; cases hk
        | some tpk => exact ⟨tpk, rfl⟩
      simp only [List.map_cons, constructInputs, htpk]
      rw [bind_eq_rbind, construct_refv hf]
      simp only [Res.bind]
      rw [bind_eq_rbind, ih s (fun k2 hk2 => hlk k2 (List.mem_cons_of_mem _ hk2))]
      simp only [Res.bind]
      rfl

theorem callInternalUser_refs_inv {fuel : Nat} {s : St} {op : UOp} {tps : List (String × Ty)}
    {l : List (String × Ref)} {outs : List (String × Ref)} {c : CallRec} {aux : List CallRec}
    {s2 : St}
    (h : callInternalUser fuel s op (l.map (fun p => (p.1, Inp.refv p.2))) tps =
      .ok (outs, c, aux, s2)) :
    outs = c.outputs ∧ c.hid = callHidOf op.name l none ∧
    (∀ k ∈ l.map Prod.fst, (lookupA k tps).isSome = true) := by
  simp only [callInternalUser, bind_eq_rbind] at h
  obtain ⟨t1, ht1, h2⟩ := Res.bind_ok h
  obtain ⟨wins, ics, s1⟩ := t1
  obtain ⟨hwins, hics, hs1, hlks⟩ := constructInputs_refs_inv ht1
  subst hwins hics hs1
  obtain ⟨copt, hcopt, h3⟩ := Res.bind_ok h2
  cases copt with
  | some c0 =>
      simp only [Res.ok.injEq, Prod.mk.injEq] at h3
      obtain ⟨ho, hc, _, _⟩ := h3
      subst hc
      exact ⟨ho.symm, lookupCall_some_hid hcopt, hlks⟩
  | none =>
      obtain ⟨raws, hraws, h4⟩ := Res.bind_ok h3
      obtain ⟨s3, hs3, h5⟩ := Res.bind_ok h4
      obtain ⟨outsDict, houtsDict, h6⟩ := Res.bind_ok h5
      obtain ⟨t7, ht7, h8⟩ := Res.bind_ok h6
      obtain ⟨wouts, outputCalls, s4⟩ := t7
      simp only [Res.ok.injEq, Prod.mk.injEq] at h8
      obtain ⟨ho, hc, _, _⟩ := h8
      subst hc
      exact ⟨ho.symm, rfl, hlks⟩

mutual
theorem saveRef_preserve (s : St) (r : Ref) :
    (saveRef s r).callCache = s.callCache ∧ (saveRef s r).ops = s.ops ∧
    (saveRef s r).callPersistent = s.callPersistent := by
  unfold saveRef
  by_cases he : shapesExists s r.hid = true
  · rw [if_pos he]
    exact ⟨rfl, rfl, rfl⟩
  · rw [if_neg he]
    match r with
    | .atomR c h o =>
        cases o <;> exact ⟨rfl, rfl, rfl⟩
    | .listR c h m elts =>
        exact saveRefList_preserve _ elts
    | .dictR c h m items =>
        exact saveRefItems_preserve _ items
termination_by structural r

theorem saveRefList_preserve (s : St) (elts : List Ref) :
    (saveRefList s elts).callCache = s.callCache ∧ (saveRefList s elts).ops = s.ops ∧
    (saveRefList s elts).callPersistent = s.callPersistent := by
  match elts with
  | [] => exact ⟨rfl, rfl, rfl⟩
  | r :: rest =>
      have h1 := saveRef_preserve s r
      have h2 := saveRefList_preserve (saveRef s r) rest
      exact ⟨h2.1.trans h1.1, h2.2.1.trans h1.2.1, h2.2.2.trans h1.2.2⟩
termination_by structural elts

theorem saveRefItems_preserve (s : St) (items : List (String × Ref)) :
    (saveRefItems s items).callCache = s.callCache ∧ (saveRefItems s items).ops = s.ops ∧
    (saveRefItems s items).callPersistent = s.callPersistent := by
  match items with
  | [] => exact ⟨rfl, rfl, rfl⟩
  | (k, r) :: rest =>
      have h1 := saveRef_preserve s r
      have h2 := saveRefItems_preserve (saveRef s r) rest
      exact ⟨h2.1.trans h1.1, h2.2.1.trans h1.2.1, h2.2.2.trans h1.2.2⟩
termination_by structural items
end

theorem saveCall_new {s : St} {c : CallRec}
    (h1 : callCacheData s c.hid = none) (h2 : callPersistentData s c.hid = none) :
    (saveCall s c).callCache = callDataOfRec c :: s.callCache ∧
    (saveCall s c).ops.contains c.opName = true ∧
    (saveCall s c).callPersistent = s.callPersistent := by
  unfold saveCall
  rw [h1, h2]
  simp only [Option.isSome_none, Bool.or_self, Bool.false_eq_true, if_false]
  set s1 := if s.ops.contains c.opName = true then s else { s with ops := c.opName :: s.ops } with hs1
  have hops1 : s1.ops.contains c.opName = true := by
    rw [hs1]
    by_cases hc : s.ops.contains c.opName = true
    · rw [if_pos hc]
      exact hc
    · rw [if_neg hc]
      simp [List.contains_cons]
  have hpres := saveRefList_preserve s1 (c.inputs.map (fun p => p.2) ++ c.outputs.map (fun p => p.2))
  refine ⟨?_, ?_, ?_⟩
  · show callDataOfRec c :: (saveRefList s1 _).callCache = _
    rw [hpres.1]
    have : s1.callCache = s.callCache := by
      rw [hs1]
      by_cases hc : s.ops.contains c.opName = true
      · rw [if_pos hc]
      · rw [if_neg hc]
    rw [this]
  · show (saveRefList s1 _).ops.contains c.opName = true
    rw [hpres.2.1]
    exact hops1
  · show (saveRefList s1 _).callPersistent = _
    rw [hpres.2.2]
    rw [hs1]
    by_cases hc : s.ops.contains c.opName = true
    · rw [if_pos hc]
    · rw [if_neg hc]

theorem loadOrJunk_ok {fuel : Nat} {s : St} {h : Digest} {lazy : Bool}
    (hok : (loadRef fuel s h lazy).isOk = true) :
    loadRef fuel s h lazy = .ok (loadOrJunk fuel s h lazy) := by
  unfold loadOrJunk
  cases hl : loadRef fuel s h lazy with
  | ok r => rfl
  | err e =>
      rw [hl] at hok
      cases hok

/-- C1: after a first `call_internal` on an op with already-wrapped inputs
has produced a call that is new to the storage and the call has been
recorded with `save_call`, a second `call_internal` on inputs with the same
history ids takes the lookup-by-call-hid path: it returns output refs whose
slot names and hids are identical to the first call's outputs, a call with
the first call's hid and cid, no auxiliary calls, and — never reaching the
execute branch — returns the storage state unchanged (in particular the
user function execution counter is untouched).  The side conditions say the
recorded shapes are loadable and stored under their own hids. -/
theorem C1_memoized_call_reuses_outputs
    (fuel F : Nat) (s : St) (op : UOp) (l : List (String × Ref)) (tps : List (String × Ty))
    (outs1 : List (String × Ref)) (c1 : CallRec) (aux1 : List CallRec) (s1 s2 : St)
    (h1 : callInternalUser fuel s op (l.map (fun p => (p.1, Inp.refv p.2))) tps =
      .ok (outs1, c1, aux1, s1))
    (hnewC : callCacheData s1 c1.hid = none)
    (hnewP : callPersistentData s1 c1.hid = none)
    (hs2 : s2 = saveCall s1 c1)
    (hF : 1 ≤ F)
    (hload : ((callDataOfRec c1).inputHids ++ (callDataOfRec c1).outputHids).all
      (fun p => (loadRef F s2 p.2 true).isOk) = true)
    (hsh : (callDataOfRec c1).outputHids.all (fun p =>
      match shapesGet s2 p.2 with
      | .ok sh => decide (sh.hid = p.2)
      | .err _ => false) = true) :
    ∃ outs2 c2,
      callInternalUser F s2 op (l.map (fun p => (p.1, Inp.refv p.2))) tps =
        .ok (outs2, c2, [], s2) ∧
      outs2.map (fun p => (p.1, p.2.hid)) = outs1.map (fun p => (p.1, p.2.hid)) ∧
      c2.hid = c1.hid ∧ c2.cid = c1.cid := by
  obtain ⟨houts1, hhid1, hlks⟩ := callInternalUser_refs_inv h1
  have hsave := saveCall_new hnewC hnewP
  rw [← hs2] at hsave
  have hloadAll := List.all_eq_true.mp hload
  have hshAll := List.all_eq_true.mp hsh
  -- the reconstructed inputs and outputs of the cached call
  have hinsEq : mapR (fun p => loadRef F s2 p.2 true >>= fun r => Res.ok (p.1, r))
      (callDataOfRec c1).inputHids =
      .ok ((callDataOfRec c1).inputHids.map (fun p => (p.1, loadOrJunk F s2 p.2 true))) := by
    apply mapR_congr_ok
    intro p hp
    rw [loadOrJunk_ok (by simpa using hloadAll p (List.mem_append_left _ hp))]
    rfl
  have houtsEq : mapR (fun p => loadRef F s2 p.2 true >>= fun r => Res.ok (p.1, r))
      (callDataOfRec c1).outputHids =
      .ok ((callDataOfRec c1).outputHids.map (fun p => (p.1, loadOrJunk F s2 p.2 true))) := by
    apply mapR_congr_ok
    intro p hp
    rw [loadOrJunk_ok (by simpa using hloadAll p (List.mem_append_right _ hp))]
    rfl
  have hgcfd : getCallFromData F s2 (callDataOfRec c1) true =
      .ok { opName := (callDataOfRec c1).opName, cid := (callDataOfRec c1).cid,
            hid := (callDataOfRec c1).hid,
            inputs := (callDataOfRec c1).inputHids.map (fun p => (p.1, loadOrJunk F s2 p.2 true)),
            outputs := (callDataOfRec c1).outputHids.map (fun p => (p.1, loadOrJunk F s2 p.2 true)),
            sv := none } := by
    unfold getCallFromData
    rw [if_pos (show s2.ops.contains (callDataOfRec c1).opName = true from hsave.2.1)]
    rw [bind_eq_rbind, hinsEq]
    simp only [Res.bind]
    rw [bind_eq_rbind, houtsEq]
    simp only [Res.bind]
  have hfind : callCacheData s2 (callHidOf op.name l none) = some (callDataOfRec c1) := by
    unfold callCacheData
    rw [hsave.1]
    refine List.find?_cons_of_pos _ ?_
    have hdh : (callDataOfRec c1).hid = c1.hid := rfl
    rw [hdh, ← hhid1]
    simp
  have hlu : lookupCall F s2 op.name l =
      .ok (some ({ opName := (callDataOfRec c1).opName, cid := (callDataOfRec c1).cid,
                   hid := (callDataOfRec c1).hid,
                   inputs := (callDataOfRec c1).inputHids.map
                     (fun p => (p.1, loadOrJunk F s2 p.2 true)),
                   outputs := (callDataOfRec c1).outputHids.map
                     (fun p => (p.1, loadOrJunk F s2 p.2 true)),
                   sv := none } : CallRec)) := by
    simp only [lookupCall, hfind, bind_eq_rbind, hgcfd, Res.bind]
  have hci := @constructInputs_refs_ok F tps hF l s2 hlks
  refine ⟨(callDataOfRec c1).outputHids.map (fun p => (p.1, loadOrJunk F s2 p.2 true)),
    { opName := (callDataOfRec c1).opName, cid := (callDataOfRec c1).cid,
      hid := (callDataOfRec c1).hid,
      inputs := (callDataOfRec c1).inputHids.map (fun p => (p.1, loadOrJunk F s2 p.2 true)),
      outputs := (callDataOfRec c1).outputHids.map (fun p => (p.1, loadOrJunk F s2 p.2 true)),
      sv := none }, ?_, ?_, rfl, rfl⟩
  · simp only [callInternalUser, bind_eq_rbind, hci, Res.bind, hlu]
  · have hpt : ∀ p ∈ (callDataOfRec c1).outputHids,
        ((fun p => (p.1, (loadOrJunk F s2 p.2 true).hid)) p) = ((fun p => (p.1, p.2)) p) := by
      intro p hp
      have hok : (loadRef F s2 p.2 true).isOk = true := by
        simpa using hloadAll p (List.mem_append_right _ hp)
      obtain ⟨sh, hshg, _, hhid⟩ := loadRef_ok_top (loadOrJunk_ok hok)
      have hmatch := hshAll p hp
      rw [hshg] at hmatch
      have : sh.hid = p.2 := of_decide_eq_true hmatch
      simp only [hhid, this]
    calc ((callDataOfRec c1).outputHids.map (fun p => (p.1, loadOrJunk F s2 p.2 true))).map
          (fun p => (p.1, p.2.hid))
        = (callDataOfRec c1).outputHids.map (fun p => (p.1, (loadOrJunk F s2 p.2 true).hid)) := by
          rw [List.map_map]
          rfl
      _ = (callDataOfRec c1).outputHids.map (fun p => (p.1, p.2)) := List.map_congr_left hpt
      _ = (callDataOfRec c1).outputHids := by simp
      _ = outs1.map (fun p => (p.1, p.2.hid)) := by rw [houts1]; rfl

/-- C1 witness: the recorded `inc` call is reused on the second invocation
with the same input ref. -/
theorem C1_memoized_call_reuses_outputs_witness :
    ∃ outs2 c2,
      callInternalUser 8 exIncSaved exIncOp [("x", .refv exX41)] [("x", .atomT)] =
        .ok (outs2, c2, [], exIncSaved) ∧
      outs2.map (fun p => (p.1, p.2.hid)) = exIncOuts.map (fun p => (p.1, p.2.hid)) ∧
      c2.hid = exIncCall.hid ∧ c2.cid = exIncCall.cid :=
  C1_memoized_call_reuses_outputs 8 8 emptySt exIncOp [("x", exX41)] [("x", .atomT)]
    exIncOuts exIncCall exIncAux exIncSt exIncSaved
    (by decide) (by decide) (by decide) (by decide) (by decide) (by decide) (by decide)

theorem Ref.cid_withHid (r : Ref) (h : Digest) : (r.withHid h).cid = r.cid := by
  cases r <;> rfl

theorem Ref.hid_withHid (r : Ref) (h : Digest) : (r.withHid h).hid = h := by
  cases r <;> rfl

theorem lookupA_map_self {β : Type} (f : String → β) :
    ∀ (names : List String) (k : String), k ∈ names →
    lookupA k (names.map (fun n => (n, f n))) = some (f k) := by
  intro names
  induction names with
  | nil => intro k hk; cases hk
  | cons n rest ih =>
      intro k hk
      by_cases hkn : k = n
      · subst hkn
        simp [lookupA]
      · rcases List.mem_cons.mp hk with hk | hk
        · exact absurd hk hkn
        · simp only [List.map_cons, lookupA, if_neg hkn]
          exact ih k hk

theorem callInternalUser_refs_empty_inv {fuel : Nat} {s : St} {op : UOp}
    {tps : List (String × Ty)} {l : List (String × Ref)} {outs : List (String × Ref)}
    {c : CallRec} {aux : List CallRec} {s2 : St}
    (hcc : s.callCache = [])
    (h : callInternalUser fuel s op (l.map (fun p => (p.1, Inp.refv p.2))) tps =
      .ok (outs, c, aux, s2)) :
    outs = c.outputs ∧ c.hid = callHidOf op.name l none ∧ c.cid = callCidOf op.name l none ∧
    c.opName = op.name ∧ (∀ k ∈ l.map Prod.fst, (lookupA k tps).isSome = true) := by
  simp only [callInternalUser, bind_eq_rbind] at h
  obtain ⟨t1, ht1, h2⟩ := Res.bind_ok h
  obtain ⟨wins, ics, s1⟩ := t1
  obtain ⟨hwins, hics, hs1, hlks⟩ := constructInputs_refs_inv ht1
  subst hwins hics hs1
  obtain ⟨copt, hcopt, h3⟩ := Res.bind_ok h2
  rw [lookupCall_empty _ _ _ _ hcc] at hcopt
  cases hcopt
  obtain ⟨raws, hraws, h4⟩ := Res.bind_ok h3
  obtain ⟨s3, hs3, h5⟩ := Res.bind_ok h4
  obtain ⟨outsDict, houtsDict, h6⟩ := Res.bind_ok h5
  obtain ⟨t7, ht7, h8⟩ := Res.bind_ok h6
  obtain ⟨wouts, outputCalls, s4⟩ := t7
  simp only [Res.ok.injEq, Prod.mk.injEq] at h8
  obtain ⟨ho, hc, _, _⟩ := h8
  subst hc
  exact ⟨ho.symm, rfl, rfl, rfl, hlks⟩

/-- C4: a first call on input `x` executed against a fresh session and
recorded; a second call on an input `y` with the same cid but a different
hid misses the lookup-by-hid, is found by call content id, and is rebuilt
without executing the user function: the returned call keeps the first
call's cid under a new distinct call hid, its outputs keep the first call's
output cids, their hids are re-derived from the new call hid and the output
slot names, and the returned state is exactly the pre-call state (the
execution counter is untouched). -/
theorem C4_content_lookup_rederives_hids
    (fuel F : Nat) (s : St) (op : UOp) (x y : Ref) (tps : List (String × Ty))
    (outs1 : List (String × Ref)) (c1 : CallRec) (aux1 : List CallRec) (s1 s2 : St)
    (hcc : s.callCache = [])
    (h1 : callInternalUser fuel s op [("x", .refv x)] tps = .ok (outs1, c1, aux1, s1))
    (hcc1 : s1.callCache = [])
    (hnewP : callPersistentData s1 c1.hid = none)
    (hs2 : s2 = saveCall s1 c1)
    (hxy : x.cid = y.cid) (hne : x.hid ≠ y.hid)
    (hF : 1 ≤ F)
    (hload : ((callDataOfRec c1).inputHids ++ (callDataOfRec c1).outputHids).all
      (fun p => (loadRef F s2 p.2 true).isOk) = true)
    (hsh : c1.outputs.all (fun q =>
      match shapesGet s2 q.2.hid with
      | .ok sh => decide (sh.hid = q.2.hid) && decide (sh.cid = q.2.cid)
      | .err _ => false) = true) :
    ∃ outs2 c2,
      callInternalUser F s2 op [("x", .refv y)] tps = .ok (outs2, c2, [], s2) ∧
      c2.cid = c1.cid ∧ c2.hid ≠ c1.hid ∧
      outs2.map (fun p => (p.1, p.2.cid)) = outs1.map (fun p => (p.1, p.2.cid)) ∧
      outs2.map (fun p => (p.1, p.2.hid)) = outHidsOf c2.hid (outs1.map (fun p => p.1)) := by
  have h1m : callInternalUser fuel s op ([("x", x)].map (fun p => (p.1, Inp.refv p.2))) tps =
      .ok (outs1, c1, aux1, s1) := h1
  obtain ⟨houts1, hhid1, hcid1, hop1, hlks⟩ := callInternalUser_refs_empty_inv hcc h1m
  have hnewC : callCacheData s1 c1.hid = none := by
    unfold callCacheData
    rw [hcc1]
    rfl
  have hsave := saveCall_new hnewC hnewP
  rw [← hs2] at hsave
  have hcache2 : s2.callCache = [callDataOfRec c1] := by
    rw [hsave.1, hcc1]
  have hloadAll := List.all_eq_true.mp hload
  have hshAll := List.all_eq_true.mp hsh
  -- reconstruction of the stored call data
  have hinsEq : mapR (fun p => loadRef F s2 p.2 true >>= fun r => Res.ok (p.1, r))
      (callDataOfRec c1).inputHids =
      .ok ((callDataOfRec c1).inputHids.map (fun p => (p.1, loadOrJunk F s2 p.2 true))) := by
    apply mapR_congr_ok
    intro p hp
    rw [loadOrJunk_ok (by simpa using hloadAll p (List.mem_append_left _ hp))]
    rfl
  have houtsEq : mapR (fun p => loadRef F s2 p.2 true >>= fun r => Res.ok (p.1, r))
      (callDataOfRec c1).outputHids =
      .ok ((callDataOfRec c1).outputHids.map (fun p => (p.1, loadOrJunk F s2 p.2 true))) := by
    apply mapR_congr_ok
    intro p hp
    rw [loadOrJunk_ok (by simpa using hloadAll p (List.mem_append_right _ hp))]
    rfl
  have hgcfd : getCallFromData F s2 (callDataOfRec c1) true =
      .ok { opName := (callDataOfRec c1).opName, cid := (callDataOfRec c1).cid,
            hid := (callDataOfRec c1).hid,
            inputs := (callDataOfRec c1).inputHids.map (fun p => (p.1, loadOrJunk F s2 p.2 true)),
            outputs := (callDataOfRec c1).outputHids.map
              (fun p => (p.1, loadOrJunk F s2 p.2 true)),
            sv := none } := by
    unfold getCallFromData
    rw [if_pos (show s2.ops.contains (callDataOfRec c1).opName = true from hsave.2.1)]
    rw [bind_eq_rbind, hinsEq]
    simp only [Res.bind]
    rw [bind_eq_rbind, houtsEq]
    simp only [Res.bind]
  -- the two derived call hids differ
  have hchid : c1.hid = .callHid op.name [("x", x.hid)] none := by
    rw [hhid1]
    rfl
  have hchid2ne : callHidOf op.name [("x", y)] none ≠ c1.hid := by
    rw [hchid]
    show Digest.callHid op.name (sortByName [("x", y.hid)]) none ≠ _
    intro heq
    have : y.hid = x.hid := by
      simpa [sortByName, insByName] using heq
    exact hne this.symm
  have hfindHid : callCacheData s2 (callHidOf op.name [("x", y)] none) = none := by
    unfold callCacheData
    rw [hcache2]
    rw [List.find?_cons_of_neg]
    · rfl
    · simp only [decide_eq_true_eq]
      show (callDataOfRec c1).hid = _ → False
      intro hq
      exact hchid2ne (by rw [← hq]; rfl)
  have hfindCid : callCacheDataContent s2 (callCidOf op.name [("x", y)] none) =
      some (callDataOfRec c1) := by
    unfold callCacheDataContent
    rw [hcache2]
    refine List.find?_cons_of_pos _ ?_
    simp only [decide_eq_true_eq]
    show (callDataOfRec c1).cid = _
    have : callCidOf op.name [("x", y)] none = callCidOf op.name [("x", x)] none := by
      show Digest.callCid op.name (sortByName [("x", y.cid)]) none =
        Digest.callCid op.name (sortByName [("x", x.cid)]) none
      rw [hxy]
    rw [this, ← hcid1]
    rfl
  have hci : constructInputs F s2 tps ([("x", y)].map (fun p => (p.1, Inp.refv p.2))) =
      .ok ([("x", y)], [], s2) := by
    refine constructInputs_refs_ok hF [("x", y)] s2 ?_
    intro k hk
    simp only [List.map_cons, List.map_nil, List.mem_singleton] at hk
    subst hk
    exact hlks "x" (by simp)
  have hci2 : constructInputs F s2 tps [("x", Inp.refv y)] = .ok ([("x", y)], [], s2) := hci
  -- the rewritten outputs of the content-path clone
  have houtNames : (callDataOfRec c1).outputHids.map (fun p => p.1) =
      c1.outputs.map (fun q => q.1) := by
    show (c1.outputs.map (fun q => (q.1, q.2.hid))).map (fun p => p.1) = _
    rw [List.map_map]
    rfl
  refine ⟨((callDataOfRec c1).outputHids.map (fun p => (p.1, loadOrJunk F s2 p.2 true))).map
      (fun p => (p.1, p.2.withHid (.outHid (callHidOf op.name [("x", y)] none) p.1))),
    { opName := (callDataOfRec c1).opName, cid := (callDataOfRec c1).cid,
      hid := callHidOf op.name [("x", y)] none,
      inputs := (callDataOfRec c1).inputHids.map (fun p => (p.1, loadOrJunk F s2 p.2 true)),
      outputs := ((callDataOfRec c1).outputHids.map
        (fun p => (p.1, loadOrJunk F s2 p.2 true))).map
          (fun p => (p.1, p.2.withHid (.outHid (callHidOf op.name [("x", y)] none) p.1))),
      sv := none }, ?_, rfl, ?_, ?_, ?_⟩
  · -- the run of the second call
    have hlu : lookupCall F s2 op.name [("x", y)] =
        .ok (some ({ opName := (callDataOfRec c1).opName, cid := (callDataOfRec c1).cid,
                     hid := callHidOf op.name [("x", y)] none,
                     inputs := (callDataOfRec c1).inputHids.map
                       (fun p => (p.1, loadOrJunk F s2 p.2 true)),
                     outputs := ((callDataOfRec c1).outputHids.map
                       (fun p => (p.1, loadOrJunk F s2 p.2 true))).map
                         (fun p => (p.1, p.2.withHid
                           (.outHid (callHidOf op.name [("x", y)] none) p.1))),
                     sv := none } : CallRec)) := by
      simp only [lookupCall, hfindHid, hfindCid, bind_eq_rbind, hgcfd, Res.bind]
      have houtsRw : ∀ p ∈ (callDataOfRec c1).outputHids.map
          (fun p => (p.1, loadOrJunk F s2 p.2 true)),
          (match lookupA p.1 (outHidsOf (callHidOf op.name [("x", y)] none)
              ((callDataOfRec c1).outputHids.map (fun p => p.1))) with
           | some oh => (p.1, p.2.withHid oh)
           | none => p) =
          (p.1, p.2.withHid (.outHid (callHidOf op.name [("x", y)] none) p.1)) := by
        intro p hp
        have hpe : p.1 ∈ (callDataOfRec c1).outputHids.map (fun q => q.1) := by
          rcases List.mem_map.mp hp with ⟨q, hq, hqe⟩
          rw [← hqe]
          exact List.mem_map.mpr ⟨q, hq, rfl⟩
        rw [show outHidsOf (callHidOf op.name [("x", y)] none)
            ((callDataOfRec c1).outputHids.map (fun q => q.1)) =
            ((callDataOfRec c1).outputHids.map (fun q => q.1)).map
              (fun n => (n, Digest.outHid (callHidOf op.name [("x", y)] none) n)) from rfl]
        rw [lookupA_map_self _ _ _ hpe]
      rw [List.map_congr_left houtsRw]
    simp only [callInternalUser, bind_eq_rbind, hci2, Res.bind, hlu]
  · -- the new call hid differs
    exact hchid2ne
  · -- output cids are preserved
    rw [houts1]
    rw [List.map_map, List.map_map]
    show (c1.outputs.map (fun q => (q.1, q.2.hid))).map
      (fun p => (p.1, ((loadOrJunk F s2 p.2 true).withHid _).cid)) = _
    rw [List.map_map]
    apply List.map_congr_left
    intro q hq
    have hmatch := hshAll q hq
    have hok : (loadRef F s2 q.2.hid true).isOk = true := by
      have hmem : (q.1, q.2.hid) ∈
          (callDataOfRec c1).inputHids ++ (callDataOfRec c1).outputHids := by
        refine List.mem_append_right _ ?_
        show (q.1, q.2.hid) ∈ c1.outputs.map (fun q => (q.1, q.2.hid))
        exact List.mem_map.mpr ⟨q, hq, rfl⟩
      exact hloadAll _ hmem
    obtain ⟨sh, hshg, hcidtop, _⟩ := loadRef_ok_top (loadOrJunk_ok hok)
    rw [hshg] at hmatch
    simp only [Bool.and_eq_true, decide_eq_true_eq] at hmatch
    simp only [Ref.cid_withHid]
    show (q.1, (loadOrJunk F s2 q.2.hid true).cid) = (q.1, q.2.cid)
    rw [hcidtop, hmatch.2]
  · -- output hids are re-derived from the new call hid
    rw [houts1]
    show _ = outHidsOf _ (c1.outputs.map (fun q => q.1))
    rw [← houtNames]
    rw [List.map_map, List.map_map]
    show (callDataOfRec c1).outputHids.map
      (fun p => (p.1, ((loadOrJunk F s2 p.2 true).withHid _).hid)) = _
    rw [show outHidsOf (callHidOf op.name [("x", y)] none)
        ((callDataOfRec c1).outputHids.map (fun q => q.1)) =
        ((callDataOfRec c1).outputHids.map (fun q => q.1)).map
          (fun n => (n, Digest.outHid (callHidOf op.name [("x", y)] none) n)) from rfl]
    rw [List.map_map]
    apply List.map_congr_left
    intro p _
    simp only [Ref.hid_withHid]
    rfl

/-- C4 witness: calling `inc` on a ref with the same content id but a fresh
history id reuses the stored call by content, re-deriving the output hids. -/
theorem C4_content_lookup_rederives_hids_witness :
    ∃ outs2 c2,
      callInternalUser 8 exIncSaved exIncOp [("x", .refv exY41)] [("x", .atomT)] =
        .ok (outs2, c2, [], exIncSaved) ∧
      c2.cid = exIncCall.cid ∧ c2.hid ≠ exIncCall.hid ∧
      outs2.map (fun p => (p.1, p.2.cid)) = exIncOuts.map (fun p => (p.1, p.2.cid)) ∧
      outs2.map (fun p => (p.1, p.2.hid)) = outHidsOf c2.hid (exIncOuts.map (fun p => p.1)) :=
  C4_content_lookup_rederives_hids 8 8 emptySt exIncOp exX41 exY41 [("x", .atomT)]
    exIncOuts exIncCall exIncAux exIncSt exIncSaved
    (by decide) (by decide) (by decide) (by decide) (by decide) (by decide) (by decide)
    (by decide) (by decide) (by decide)

/-- C7: the side-effect guard of `call_internal`: with the inputs
constructed, the lookup a miss, the user function run on the unwrapped
values, the execution counter bumped, and the post-call values
re-fingerprinted at the declared annotations, an op that does not allow
side effects fails with the side-effect error exactly when some input cid
changed from its pre-call snapshot (so no call record is produced), and
completes normally — returning the assembled call record — when no input
cid changed or when the op allows side effects. -/
theorem C7_side_effect_guard
    (F : Nat) (s : St) (op : UOp) (storageInputs : List (String × Inp))
    (tps : List (String × Ty)) (wins : List (String × Ref))
    (inputCalls : List CallRec) (s1 : St) (raws : List (String × Val))
    (rets postArgs : List Val) (s2 : St) (cidsAfter : List (String × Digest))
    (s3 : St) (outsDict : List (String × Ty × Val)) (wouts : List (String × Ref))
    (outputCalls : List CallRec) (s4 : St)
    (hci : constructInputs F s tps storageInputs = .ok (wins, inputCalls, s1))
    (hlu : lookupCall F s1 op.name wins = .ok none)
    (hraws : mapR (fun p => do
      let v ← storageUnwrap F s1 p.2
      Res.ok (p.1, v)) wins = .ok raws)
    (hfn : op.fn (raws.map (fun p => p.2)) = (rets, postArgs))
    (hs2 : s2 = { s1 with execCount := s1.execCount + 1 })
    (hlen : postArgs.length = wins.length)
    (hrf : refingerprint F s2 tps ((raws.map (fun p => p.1)).zip postArgs) =
      .ok (cidsAfter, s3))
    (hpr : parseReturns op.outputNames op.outTys rets = .ok outsDict) :
    (op.allowSideEffects = false →
      wins.map (fun p => (p.1, p.2.cid)) ≠ cidsAfter →
      callInternalUser F s op storageInputs tps = .err .sideEffectDetected) ∧
    (op.allowSideEffects = false →
      wins.map (fun p => (p.1, p.2.cid)) = cidsAfter →
      wrapOutputs F s3 (callHidOf op.name wins none) outsDict =
        .ok (wouts, outputCalls, s4) →
      callInternalUser F s op storageInputs tps =
        .ok (wouts,
          { opName := op.name, cid := callCidOf op.name wins none,
            hid := callHidOf op.name wins none, inputs := wins,
            outputs := wouts, sv := none },
          inputCalls ++ outputCalls, s4)) ∧
    (op.allowSideEffects = true →
      wrapOutputs F s2 (callHidOf op.name wins none) outsDict =
        .ok (wouts, outputCalls, s4) →
      callInternalUser F s op storageInputs tps =
        .ok (wouts,
          { opName := op.name, cid := callCidOf op.name wins none,
            hid := callHidOf op.name wins none, inputs := wins,
            outputs := wouts, sv := none },
          inputCalls ++ outputCalls, s4)) := by
  subst hs2
  have hraws2 := hraws
  simp only [bind_eq_rbind, Res.bind] at hraws2
  refine ⟨?_, ?_, ?_⟩
  · intro hsfx hdiff
    have hb : (op.allowSideEffects = true) = False := by simp [hsfx]
    have hl := eq_true hlen
    have hd := eq_true hdiff
    simp only [callInternalUser, bind_eq_rbind, hci, Res.bind, hlu, hraws2, hfn,
      hb, if_false, hl, if_true, hrf, hd]
  · intro hsfx heq hwo
    have hb : (op.allowSideEffects = true) = False := by simp [hsfx]
    have hl := eq_true hlen
    have hd : (wins.map (fun p => (p.1, p.2.cid)) ≠ cidsAfter) = False :=
      eq_false (fun h => h heq)
    simp only [callInternalUser, bind_eq_rbind, hci, Res.bind, hlu, hraws2, hfn,
      hb, if_false, hl, if_true, hrf, hd, hpr, hwo]
  · intro hsfx hwo
    have hb : (op.allowSideEffects = true) = True := by simp [hsfx]
    simp only [callInternalUser, bind_eq_rbind, hci, Res.bind, hlu, hraws2, hfn,
      hb, if_true, hpr, hwo]

/-- C7 witness: the op that appends to its list input in place trips the
side-effect guard. -/
theorem C7_side_effect_guard_witness :
    callInternalUser 8 emptySt exMutOp exMutInps exMutTps =
      .err .sideEffectDetected :=
  (C7_side_effect_guard 8 emptySt exMutOp exMutInps exMutTps
    exMutWins exMutICalls exMutS1 exMutRaws exMutRets exMutPost exMutS2
    exMutCidsAfter exMutS3 exMutOutsDict [] [] emptySt
    (by decide) (by decide) (by decide) (by decide) (by decide) (by decide)
    (by decide) (by decide)).1 rfl (by decide)
